import Mathlib

/-!
Verification of sqlitedb-generator: identifier handling, the delimited reader, type
inference, statement text and the transactional import.

A shallow embedding of `internal/sqliteutil/ident.go` and of
`internal/generator/generator.go`, followed by theorems about them.

Modelling conventions.

* A Go `string` is modelled by the sequence of runes that `for _, r := range s`
  yields, as a `List Char` (`Str`).  String literals of the source are written
  `"...".toList`.
* Go `int` and `int64` counters are modelled by `Nat`: every counter of the embedded
  code is bounded by the length of a slice or by the number of rows of a file, so
  64-bit wrap-around is out of reach.
* Library functions of Go whose tables or grammars are not part of the
  repository (`unicode.IsLetter`, `unicode.IsDigit`, `unicode.IsSpace`,
  `strconv.ParseInt`, `strconv.ParseFloat`) are parameters, bundled in the
  structures `Unicode` and `Strconv`; every theorem holds for all of them.
* The unbounded `for { ... }` loop of `DedupIdents` takes an explicit fuel
  argument; the theorems show that the length of the input is enough fuel.
* The database is explicit state (`Db`): the committed contents, the working
  contents of the open transaction, and the calls made so far with their outcomes.
  What a call does to the contents, and whether it fails, is given by an `Engine`,
  a parameter.  Errors are modelled by their messages.
* A file is the sequence of the results of the successive `Read` calls on it
  (`TsvFile`); the record reader itself, Go `encoding/csv` as `newTSVReader`
  configures it, is modelled by `newTSVReader` (the line ends as `readLine`
  delivers them) and `readRecord` (one `Read` call).
-/

namespace SqliteGen

/-- A Go string, as its sequence of runes. -/
abbrev Str := List Char

/-! ## `internal/sqliteutil/ident.go` -/

/-- The character classes of Go's `unicode` package that the program calls. -/
structure Unicode where
  /-- Go `unicode.IsSpace`. -/
  isSpace : Char → Bool
  /-- Go `unicode.IsLetter`. -/
  isLetter : Char → Bool
  /-- Go `unicode.IsDigit`. -/
  isDigit : Char → Bool

/-- The double-quote rune. -/
def dq : Char := '"'

/-- Go `strings.ReplaceAll(ident, "\"", "\"\"")`: the one-rune pattern is replaced
wherever it occurs, every other rune is kept. -/
def escapeQuotes (ident : Str) : Str :=
  ident.flatMap (fun c => if c = dq then [dq, dq] else [c])

/-- Go `QuoteIdent`: `"\"" + strings.ReplaceAll(ident, "\"", "\"\"") + "\""`. -/
def QuoteIdent (ident : Str) : Str :=
  [dq] ++ escapeQuotes ident ++ [dq]

/-- Go `strings.TrimSpace`: drops the leading and the trailing runes that are
white space. -/
def TrimSpace (U : Unicode) (s : Str) : Str :=
  (s.dropWhile U.isSpace).rdropWhile U.isSpace

/-- Go `strings.Trim(out, "_")`: drops the leading and the trailing underscores. -/
def trimUnderscores (s : Str) : Str :=
  (s.dropWhile (fun c => c == '_')).rdropWhile (fun c => c == '_')

/-- The body of the `for _, r := range raw` loop of `SanitizeIdent`: the rune
written to the builder for the rune `r`. -/
def sanitizeRune (U : Unicode) (r : Char) : Char :=
  if r = '_' ∨ U.isLetter r = true ∨ U.isDigit r = true then r else '_'

/-- The test `out[0] >= '0' && out[0] <= '9'` on the first byte of a non-empty
string: a byte in that range is a one-byte rune, so the test is on the first rune. -/
def startsWithAsciiDigit (out : Str) : Bool :=
  match out with
  | [] => false
  | c :: _ => decide ('0'.toNat ≤ c.toNat ∧ c.toNat ≤ '9'.toNat)

/-- Go `SanitizeIdent`. -/
def SanitizeIdent (U : Unicode) (raw : Str) : Str :=
  let raw := TrimSpace U raw
  if raw = [] then "col".toList
  else
    let out := raw.map (sanitizeRune U)
    let out := trimUnderscores out
    if out = [] then "col".toList
    else if startsWithAsciiDigit out then "c_".toList ++ out
    else out

/-- The Go map `seen map[string]int` of `DedupIdents`, as an association list
whose first binding of a key is the current one. -/
abbrev SeenMap := List (Str × Nat)

/-- Go `seen[k]`: the value bound to `k`, or the zero value when `k` is absent. -/
def seenGet (seen : SeenMap) (k : Str) : Nat :=
  match seen with
  | [] => 0
  | (k', v) :: rest => if k' = k then v else seenGet rest k

/-- Go `_, ok := seen[k]`: whether `k` is a key of the map. -/
def seenHas (seen : SeenMap) (k : Str) : Bool :=
  match seen with
  | [] => false
  | (k', _) :: rest => if k' = k then true else seenHas rest k

/-- Go `seen[k] = v`. -/
def seenPut (seen : SeenMap) (k : Str) (v : Nat) : SeenMap :=
  (k, v) :: seen

/-- Go `fmt.Sprintf("%s_%d", base, n)` for a non-negative `n`. -/
def candidate (base : Str) (n : Nat) : Str :=
  base ++ '_' :: Nat.toDigits 10 n

/-- The inner `for { n++; ... }` loop of `DedupIdents`, with fuel: the first
counter value above `n` whose candidate is not a key of `seen`, and that candidate. -/
def dedupSearch (seen : SeenMap) (base : Str) : Nat → Nat → Option (Nat × Str)
  | 0, _ => none
  | fuel + 1, n =>
    let n := n + 1
    let cand := candidate base n
    if seenHas seen cand then dedupSearch seen base fuel n
    else some (n, cand)

/-- One iteration of the outer loop of `DedupIdents` on the identifier `ident`. -/
def dedupStep (fuel : Nat) (seen : SeenMap) (out : List Str) (ident : Str) :
    Option (SeenMap × List Str) :=
  let base := ident
  let n := seenGet seen base
  if n = 0 then
    some (seenPut seen base 1, out ++ [base])
  else
    match dedupSearch seen base fuel n with
    | none => none
    | some (n, cand) => some (seenPut (seenPut seen base n) cand 1, out ++ [cand])

/-- The outer loop `for _, ident := range idents` of `DedupIdents`. -/
def dedupLoop (fuel : Nat) : SeenMap → List Str → List Str → Option (List Str)
  | _, out, [] => some out
  | seen, out, ident :: rest =>
    match dedupStep fuel seen out ident with
    | none => none
    | some (seen, out) => dedupLoop fuel seen out rest

/-- Go `DedupIdents`; `none` when an inner loop runs out of fuel. -/
def DedupIdents (fuel : Nat) (idents : List Str) : Option (List Str) :=
  dedupLoop fuel [] [] idents

/-- Go's character classes on Latin-1 (runes up to U+00FF), where the `unicode`
package answers from its fixed `properties` table; above U+00FF this instance
answers `false`.  It instantiates the `Unicode` parameter in examples. -/
def latin1Unicode : Unicode where
  isSpace c := decide (c.toNat ∈ [0x09, 0x0A, 0x0B, 0x0C, 0x0D, 0x20, 0x85, 0xA0])
  isLetter c := decide ((0x41 ≤ c.toNat ∧ c.toNat ≤ 0x5A) ∨ (0x61 ≤ c.toNat ∧ c.toNat ≤ 0x7A) ∨
    c.toNat = 0xAA ∨ c.toNat = 0xB5 ∨ c.toNat = 0xBA ∨ (0xC0 ≤ c.toNat ∧ c.toNat ≤ 0xD6) ∨
    (0xD8 ≤ c.toNat ∧ c.toNat ≤ 0xF6) ∨ (0xF8 ≤ c.toNat ∧ c.toNat ≤ 0xFF))
  isDigit c := decide (0x30 ≤ c.toNat ∧ c.toNat ≤ 0x39)

/-- The character class `[A-Za-z0-9_]` named by the doc comment of `SanitizeIdent`. -/
def isAsciiWordChar (c : Char) : Bool :=
  decide ((0x41 ≤ c.toNat ∧ c.toNat ≤ 0x5A) ∨ (0x61 ≤ c.toNat ∧ c.toNat ≤ 0x7A) ∨
    (0x30 ≤ c.toNat ∧ c.toNat ≤ 0x39) ∨ c = '_')

/-- Replacing each `""` pair by a single `"`, scanning from the left. -/
def unescapeQuotes : Str → Str
  | [] => []
  | [c] => [c]
  | c :: d :: rest =>
    if c = dq ∧ d = dq then dq :: unescapeQuotes rest else c :: unescapeQuotes (d :: rest)

/-- Un-quoting as the specification words it: drop the two outer quotes and
replace each `""` pair by a single `"`. -/
def UnquoteIdent (q : Str) : Str :=
  unescapeQuotes ((q.drop 1).dropLast)

/-- The loop invariant of `DedupIdents`: the keys of `seen` are the names assigned
so far, every key is bound to a positive counter, every candidate up to the
counter of a key has been assigned, and the assigned names are distinct. -/
structure DedupInv (seen : SeenMap) (out : List Str) : Prop where
  keys : ∀ k, seenHas seen k = true ↔ k ∈ out
  pos : ∀ k, k ∈ out → 1 ≤ seenGet seen k
  used : ∀ k j, 2 ≤ j → j ≤ seenGet seen k → candidate k j ∈ out
  nodup : out.Nodup

/-- What one iteration of `DedupIdents` assigns to the identifier `x` when the
names `prev` are already assigned: `x` itself when it is free, else the candidate
with the least counter from 2 on that is free. -/
def Assigned (prev : List Str) (x y : Str) : Prop :=
  (x ∉ prev → y = x) ∧
  (x ∈ prev → ∃ N, 2 ≤ N ∧ y = candidate x N ∧ candidate x N ∉ prev ∧
    ∀ M, 2 ≤ M → M < N → candidate x M ∈ prev)

/-! ## `internal/generator/generator.go` -/

/-- The outcomes of Go's `strconv` parsers that the program looks at. -/
structure Strconv where
  /-- Whether `strconv.ParseInt(v, 10, 64)` returns a nil error. -/
  parsesInt : Str → Bool
  /-- Whether `strconv.ParseFloat(v, 64)` returns a nil error. -/
  parsesFloat : Str → Bool

/-- Go `colType` with its three constants. -/
inductive colType where
  | colInteger
  | colReal
  | colText
  deriving DecidableEq, Repr

/-- Go `string(t)` for a `colType`: the text of the constant. -/
def colType.str : colType → Str
  | colInteger => "INTEGER".toList
  | colReal => "REAL".toList
  | colText => "TEXT".toList

/-- Go `isAllEmpty`. -/
def isAllEmpty (U : Unicode) : List Str → Bool
  | [] => true
  | s :: rest => if TrimSpace U s ≠ [] then false else isAllEmpty U rest

/-- The three slices `canInt`, `canReal`, `seenValue` of `inferColumnTypes`. -/
structure InferState where
  canInt : List Bool
  canReal : List Bool
  seenValue : List Bool

/-- The body of the loop `for i := 0; i < colCount; i++` that sets `canInt[i]`
and `canReal[i]` to `true`. -/
def inferInitStep (st : InferState) (i : Nat) : InferState :=
  { st with canInt := st.canInt.set i true, canReal := st.canReal.set i true }

/-- The slices after the three `make([]bool, colCount)` and the loop that sets
`canInt[i]` and `canReal[i]` to `true`. -/
def inferInit (colCount : Nat) : InferState :=
  (List.range colCount).foldl inferInitStep
    { canInt := List.replicate colCount false,
      canReal := List.replicate colCount false,
      seenValue := List.replicate colCount false }

/-- The value `v` that the passes take for column `i` of the record `rec`: the
trimmed field, or the empty string when the record has no field `i`. -/
def fieldValue (U : Unicode) (rec : List Str) (i : Nat) : Str :=
  match rec[i]? with
  | some s => TrimSpace U s
  | none => []

/-- The body of the loop `for i := 0; i < colCount; i++` of `inferColumnTypes`
for one record. -/
def inferCell (U : Unicode) (P : Strconv) (rec : List Str) (st : InferState) (i : Nat) :
    InferState :=
  let v := fieldValue U rec i
  if v = [] then st
  else
    let st := { st with seenValue := st.seenValue.set i true }
    let st :=
      if st.canInt.getD i false = true then
        if P.parsesInt v = true then st else { st with canInt := st.canInt.set i false }
      else st
    let st :=
      if st.canReal.getD i false = true then
        if P.parsesFloat v = true then st else { st with canReal := st.canReal.set i false }
      else st
    st

/-- The body of the record loop of `inferColumnTypes` for the record `rec`. -/
def inferRow (U : Unicode) (P : Strconv) (colCount : Nat) (st : InferState)
    (rec : List Str) : InferState :=
  if isAllEmpty U rec = true then st
  else (List.range colCount).foldl (inferCell U P rec) st

/-- The body of the final loop of `inferColumnTypes`: the type of column `i`. -/
def resolveType (st : InferState) (i : Nat) : colType :=
  if st.seenValue.getD i false = false then colType.colText
  else if st.canInt.getD i false = true then colType.colInteger
  else if st.canReal.getD i false = true then colType.colReal
  else colType.colText

/-- Go `inferColumnTypes` on the data records `rows` that the reader yields after
the header, up to the end of the file. -/
def inferColumnTypes (U : Unicode) (P : Strconv) (rows : List (List Str)) (colCount : Nat) :
    List colType :=
  let st := rows.foldl (inferRow U P colCount) (inferInit colCount)
  (List.range colCount).map (resolveType st)

/-- The values `V_i` of column `i`: the non-empty whitespace-trimmed fields at
index `i` of the rows; a row without a field `i` contributes none. -/
def columnValues (U : Unicode) (rows : List (List Str)) (i : Nat) : List Str :=
  rows.filterMap (fun rec =>
    match rec[i]? with
    | some s => if TrimSpace U s = [] then none else some (TrimSpace U s)
    | none => none)

/-- The type that the specification resolves for a column with the values `V`. -/
def typeOfValues (P : Strconv) (V : List Str) : colType :=
  if V = [] then colType.colText
  else if V.all P.parsesInt = true then colType.colInteger
  else if V.all P.parsesFloat = true then colType.colReal
  else colType.colText

/-- The order `Integer < Real < Text` of the column types. -/
def colType.rank : colType → Nat
  | colInteger => 0
  | colReal => 1
  | colText => 2

/-- Whether a string is a run of one to eighteen decimal digits after an optional
sign. -/
def isShortDecimal (s : Str) : Bool :=
  let body := match s with
    | '+' :: r => r
    | '-' :: r => r
    | r => r
  decide (body ≠ [] ∧ body.length ≤ 18) && body.all Char.isDigit

/-- The answers of the `strconv` parsers on short decimal numerals, `false`
elsewhere: integers are a sign and up to eighteen digits, floats are such an integer
or two digit runs around one point.  It instantiates the `Strconv` parameter in
examples. -/
def decimalStrconv : Strconv where
  parsesInt s := isShortDecimal s
  parsesFloat s :=
    isShortDecimal s ||
      (isShortDecimal (s.takeWhile (fun c => c != '.')) &&
        decide ((s.dropWhile (fun c => c != '.')).length ≤ 18) &&
        (match s.dropWhile (fun c => c != '.') with
          | _ :: d :: r => (d :: r).all Char.isDigit
          | _ => false))

/-- The flags of column `i` in the state: `seenValue[i]`, `canInt[i]`, `canReal[i]`. -/
def colView (st : InferState) (i : Nat) : Bool × Bool × Bool :=
  (st.seenValue.getD i false, st.canInt.getD i false, st.canReal.getD i false)

/-- The effect of the value `v` on the flags of its column. -/
def cellUpdate (P : Strconv) (v : Str) (t : Bool × Bool × Bool) : Bool × Bool × Bool :=
  if v = [] then t else (true, t.2.1 && P.parsesInt v, t.2.2 && P.parsesFloat v)

/-- The three slices of the state have length `n`. -/
def StateLen (n : Nat) (st : InferState) : Prop :=
  st.canInt.length = n ∧ st.canReal.length = n ∧ st.seenValue.length = n

/-- Go `strings.EqualFold(c, "id")`: under simple case folding the letters `i` and
`d` are equal only to themselves and to `I` and `D`. -/
def equalFoldId (c : Str) : Bool :=
  match c with
  | [a, b] => (a == 'i' || a == 'I') && (b == 'd' || b == 'D')
  | _ => false

/-- The loop of `buildCreateTableSQL` that looks for `pkCol`, from index `i` on:
the first index whose column is named `id` and typed Integer, or `-1`. -/
def findPkCol (types : List colType) : Nat → List Str → Int
  | _, [] => -1
  | i, c :: rest =>
    if equalFoldId c = true ∧ types[i]? = some colType.colInteger then (i : Int)
    else findPkCol types (i + 1) rest

/-- Go `string(types[i])`; the index is in range where the code reads it. -/
def typeText (types : List colType) (i : Nat) : Str :=
  match types[i]? with
  | some t => t.str
  | none => []

/-- The loop `for i := range cols` of `buildCreateTableSQL` that writes the column
definitions to the builder `b`, from index `i` on. -/
def writeColumns (types : List colType) (pkCol : Int) : Nat → List Str → Str → Str
  | _, [], b => b
  | i, c :: rest, b =>
    let b := if 0 < i then b ++ ", ".toList else b
    let b := b ++ QuoteIdent c
    let b := b ++ " ".toList
    let b := b ++ typeText types i
    let b := if (i : Int) = pkCol then b ++ " PRIMARY KEY".toList else b
    writeColumns types pkCol (i + 1) rest b

/-- Go `buildCreateTableSQL`: the error message, or the statement text. -/
def buildCreateTableSQL (table : Str) (cols : List Str) (types : List colType) :
    Except Str Str :=
  if cols.length ≠ types.length then
    Except.error "cols/types length mismatch".toList
  else
    let pkCol := findPkCol types 0 cols
    let b := "CREATE TABLE IF NOT EXISTS ".toList
    let b := b ++ QuoteIdent table
    let b := b ++ " (".toList
    let b := writeColumns types pkCol 0 cols b
    let b := b ++ ")".toList
    Except.ok b

/-- Column `i` qualifies as primary key: its name equals `id` case-insensitively
and its type is Integer. -/
def qualifies (cols : List Str) (types : List colType) (i : Nat) : Bool :=
  match cols[i]?, types[i]? with
  | some c, some t => equalFoldId c && decide (t = colType.colInteger)
  | _, _ => false

/-- Column `i` is the smallest index that qualifies as primary key. -/
def IsPrimaryKey (cols : List Str) (types : List colType) (i : Nat) : Prop :=
  qualifies cols types i = true ∧ ∀ j, j < i → qualifies cols types j = false

/-- The definition that `writeColumns` writes for the column `c` at index `i`. -/
def colDef (types : List colType) (pkCol : Int) (i : Nat) (c : Str) : Str :=
  QuoteIdent c ++ " ".toList ++ typeText types i ++
    (if (i : Int) = pkCol then " PRIMARY KEY".toList else [])

/-- The definitions of the columns `cols`, the first of which has index `i`. -/
def colDefs (types : List colType) (pkCol : Int) : Nat → List Str → List Str
  | _, [] => []
  | i, c :: rest => colDef types pkCol i c :: colDefs types pkCol (i + 1) rest

/-- The first loop of `buildInsertSQL`: writes the quoted columns to the builder
`b`, from index `i` on. -/
def writeInsertColumns : Nat → List Str → Str → Str
  | _, [], b => b
  | i, c :: rest, b =>
    let b := if 0 < i then b ++ ", ".toList else b
    let b := b ++ QuoteIdent c
    writeInsertColumns (i + 1) rest b

/-- The second loop of `buildInsertSQL`: writes one `?` per column to the builder
`b`, from index `i` on. -/
def writePlaceholders : Nat → List Str → Str → Str
  | _, [], b => b
  | i, _ :: rest, b =>
    let b := if 0 < i then b ++ ", ".toList else b
    let b := b ++ "?".toList
    writePlaceholders (i + 1) rest b

/-- Go `buildInsertSQL`. -/
def buildInsertSQL (table : Str) (cols : List Str) : Str :=
  let b := "INSERT INTO ".toList
  let b := b ++ QuoteIdent table
  let b := b ++ " (".toList
  let b := writeInsertColumns 0 cols b
  let b := b ++ ") VALUES (".toList
  let b := writePlaceholders 0 cols b
  let b := b ++ ")".toList
  b

/-- A value of the Go slice `args []any` of `streamInsertTSV`: `nil` or a string. -/
abbrev SqlArg := Option Str

/-- The body of the loop `for i := 0; i < colCount; i++` of `streamInsertTSV` that
fills `args[i]`. -/
def setArg (U : Unicode) (rec : List Str) (args : List SqlArg) (i : Nat) : List SqlArg :=
  match rec[i]? with
  | some s => args.set i (some (TrimSpace U s))
  | none => args.set i (some [])

/-- The slice `args` that `streamInsertTSV` builds for the record `rec`:
`make([]any, colCount)` followed by the loop over the columns. -/
def buildArgs (U : Unicode) (rec : List Str) (colCount : Nat) : List SqlArg :=
  (List.range colCount).foldl (setArg U rec) (List.replicate colCount none)

/-- What the record loop of `streamInsertTSV` does with the record `rec` before it
calls the statement: `none` when the record is skipped, else the arguments. -/
def insertRow (U : Unicode) (colCount : Nat) (rec : List Str) : Option (List SqlArg) :=
  if isAllEmpty U rec = true then none else some (buildArgs U rec colCount)

/-- The calls that the program makes on the database. -/
inductive DbCall where
  | beginTx
  | exec (sql : Str)
  | prepare (sql : Str)
  | stmtExec (args : List SqlArg)
  | stmtClose
  | commit
  | rollback
  deriving DecidableEq

/-- A call on the database and whether it returned a nil error. -/
structure DbEvent where
  call : DbCall
  ok : Bool
  deriving DecidableEq

/-- The database engine, a capability of the environment: for each call, the error
it returns or the new working state of the transaction.  `σ` is the type of the
table contents. -/
structure Engine (σ : Type) where
  /-- The error of `db.BeginTx`, if any. -/
  beginTx : σ → Option Str
  /-- `tx.ExecContext(ctx, sql)` on the working state. -/
  exec : σ → Str → Except Str σ
  /-- The error of `tx.PrepareContext(ctx, sql)`, if any. -/
  prepare : σ → Str → Option Str
  /-- `stmt.ExecContext(ctx, args...)` of the statement prepared from `sql`. -/
  stmtExec : σ → Str → List SqlArg → Except Str σ
  /-- The error of `tx.Commit`, if any. -/
  commit : σ → Option Str

/-- The database as explicit state: the committed contents, the working contents of
the open transaction if one is open, and the calls made so far. -/
structure Db (σ : Type) where
  committed : σ
  tx : Option σ
  events : List DbEvent

/-- The message of Go `sql.ErrTxDone`. -/
def errTxDone : Str := "sql: transaction has already been committed or rolled back".toList

/-- Appends a call and its outcome to the events. -/
def Db.record {σ : Type} (db : Db σ) (call : DbCall) (ok : Bool) : Db σ :=
  { db with events := db.events ++ [{ call := call, ok := ok }] }

/-- Go `db.BeginTx(ctx, nil)`: the transaction starts from the committed contents. -/
def Db.beginTx {σ : Type} (E : Engine σ) (db : Db σ) : Option Str × Db σ :=
  match E.beginTx db.committed with
  | some e => (some e, db.record DbCall.beginTx false)
  | none => (none, { db with tx := some db.committed }.record DbCall.beginTx true)

/-- Go `tx.ExecContext(ctx, sql)`. -/
def Db.exec {σ : Type} (E : Engine σ) (db : Db σ) (sql : Str) : Option Str × Db σ :=
  match db.tx with
  | none => (some errTxDone, db.record (DbCall.exec sql) false)
  | some w =>
    match E.exec w sql with
    | Except.error e => (some e, db.record (DbCall.exec sql) false)
    | Except.ok w' => (none, { db with tx := some w' }.record (DbCall.exec sql) true)

/-- Go `tx.PrepareContext(ctx, sql)`. -/
def Db.prepare {σ : Type} (E : Engine σ) (db : Db σ) (sql : Str) : Option Str × Db σ :=
  match db.tx with
  | none => (some errTxDone, db.record (DbCall.prepare sql) false)
  | some w =>
    match E.prepare w sql with
    | some e => (some e, db.record (DbCall.prepare sql) false)
    | none => (none, db.record (DbCall.prepare sql) true)

/-- Go `stmt.ExecContext(ctx, args...)` of the statement prepared from `sql`. -/
def Db.stmtExec {σ : Type} (E : Engine σ) (db : Db σ) (sql : Str) (args : List SqlArg) :
    Option Str × Db σ :=
  match db.tx with
  | none => (some errTxDone, db.record (DbCall.stmtExec args) false)
  | some w =>
    match E.stmtExec w sql args with
    | Except.error e => (some e, db.record (DbCall.stmtExec args) false)
    | Except.ok w' => (none, { db with tx := some w' }.record (DbCall.stmtExec args) true)

/-- Go `stmt.Close()`. -/
def Db.stmtClose {σ : Type} (db : Db σ) : Db σ :=
  db.record DbCall.stmtClose true

/-- Go `tx.Commit()`: on success the working contents become the committed ones;
in both cases the transaction is over. -/
def Db.commit {σ : Type} (E : Engine σ) (db : Db σ) : Option Str × Db σ :=
  match db.tx with
  | none => (some errTxDone, db.record DbCall.commit false)
  | some w =>
    match E.commit w with
    | some e => (some e, { db with tx := none }.record DbCall.commit false)
    | none => (none, { db with committed := w, tx := none }.record DbCall.commit true)

/-- Go `tx.Rollback()`, whose error the program drops: the working contents are
discarded; after a commit or rollback it only returns `sql.ErrTxDone`. -/
def Db.rollback {σ : Type} (db : Db σ) : Db σ :=
  match db.tx with
  | none => db.record DbCall.rollback false
  | some _ => { db with tx := none }.record DbCall.rollback true

/-- A file as the program sees it: the error of `os.Open` if it fails, and the
results of the successive `r.Read()` calls before `io.EOF`. -/
structure TsvFile where
  openErr : Option Str
  reads : List (Except Str (List Str))

/-- The message of Go `io.EOF`. -/
def errEOF : Str := "EOF".toList

/-- Go `strings.TrimPrefix(s, "\ufeff")`. -/
def trimBOM (s : Str) : Str :=
  match s with
  | c :: rest => if c = Char.ofNat 0xFEFF then rest else s
  | [] => []

/-- Go `readHeader`. -/
def readHeader (f : TsvFile) : Except Str (List Str) :=
  match f.openErr with
  | some e => Except.error e
  | none =>
    match f.reads with
    | [] => Except.error errEOF
    | Except.error e :: _ => Except.error e
    | Except.ok record :: _ =>
      match record with
      | [] => Except.ok []
      | first :: rest => Except.ok (trimBOM first :: rest)

/-- The records that a record loop sees before `io.EOF`, or the first read error. -/
def readAll : List (Except Str (List Str)) → Except Str (List (List Str))
  | [] => Except.ok []
  | Except.error e :: _ => Except.error e
  | Except.ok rec :: rest =>
    match readAll rest with
    | Except.error e => Except.error e
    | Except.ok rows => Except.ok (rec :: rows)

/-- Go `inferColumnTypes` with its file handling: a failing open or read returns the
error, else the types are those of the data records. -/
def inferColumnTypesFile (U : Unicode) (P : Strconv) (f : TsvFile) (colCount : Nat) :
    Except Str (List colType) :=
  match f.openErr with
  | some e => Except.error e
  | none =>
    match f.reads with
    | [] => Except.error errEOF
    | Except.error e :: _ => Except.error e
    | Except.ok _ :: data =>
      match readAll data with
      | Except.error e => Except.error e
      | Except.ok rows => Except.ok (inferColumnTypes U P rows colCount)

/-- The record loop of `streamInsertTSV` on the remaining read results, with the
count `inserted` so far: the count and error returned, and the database after. -/
def insertLoop {σ : Type} (U : Unicode) (E : Engine σ) (sql : Str) (colCount : Nat) :
    List (Except Str (List Str)) → Nat → Db σ → (Nat × Option Str) × Db σ
  | [], inserted, db => ((inserted, none), db)
  | Except.error e :: _, inserted, db => ((inserted, some e), db)
  | Except.ok rec :: rest, inserted, db =>
    match insertRow U colCount rec with
    | none => insertLoop U E sql colCount rest inserted db
    | some args =>
      match db.stmtExec E sql args with
      | (some e, db) => ((inserted, some e), db)
      | (none, db) => insertLoop U E sql colCount rest (inserted + 1) db

/-- Go `streamInsertTSV` for the statement prepared from `sql`. -/
def streamInsertTSV {σ : Type} (U : Unicode) (E : Engine σ) (sql : Str) (f : TsvFile)
    (colCount : Nat) (db : Db σ) : (Nat × Option Str) × Db σ :=
  match f.openErr with
  | some e => ((0, some e), db)
  | none =>
    match f.reads with
    | [] => ((0, some errEOF), db)
    | Except.error e :: _ => ((0, some e), db)
    | Except.ok _ :: data => insertLoop U E sql colCount data 0 db

/-- The environment of `importTSV` outside the database: the files by path, and
`strings.TrimSuffix(filepath.Base(p), filepath.Ext(p))`. -/
structure Env where
  file : Str → TsvFile
  stem : Str → Str

/-- The part of `importTSV` after `stmt` is prepared and before the deferred
`stmt.Close()` runs: the insert pass and the commit. -/
def importWithStmt {σ : Type} (U : Unicode) (env : Env) (E : Engine σ) (tsvPath : Str)
    (insertSQL : Str) (colCount : Nat) (db : Db σ) : Option Str × Db σ :=
  match streamInsertTSV U E insertSQL (env.file tsvPath) colCount db with
  | ((_, some e), db) => (some ("insert rows ".toList ++ tsvPath ++ ": ".toList ++ e), db)
  | ((_, none), db) =>
    match db.commit E with
    | (some e, db) => (some ("commit: ".toList ++ e), db)
    | (none, db) => (none, db)

/-- The part of `importTSV` from `buildCreateTableSQL` on, before the deferred
`tx.Rollback()` runs: create the table, prepare the insert statement, run the
insert pass and the commit, then the deferred `stmt.Close()`. -/
def importCreateAndLoad {σ : Type} (U : Unicode) (env : Env) (E : Engine σ) (tsvPath : Str)
    (tableName : Str) (cols : List Str) (types : List colType)
    (db : Db σ) : Option Str × Db σ :=
  match buildCreateTableSQL tableName cols types with
  | Except.error e => (some e, db)
  | Except.ok createSQL =>
    match db.exec E createSQL with
    | (some e, db) =>
      (some ("create table ".toList ++ tableName ++ ": ".toList ++ e), db)
    | (none, db) =>
      let insertSQL := buildInsertSQL tableName cols
      match db.prepare E insertSQL with
      | (some e, db) =>
        (some ("prepare insert ".toList ++ tableName ++ ": ".toList ++ e), db)
      | (none, db) =>
        match importWithStmt U env E tsvPath insertSQL cols.length db with
        | (err, db) => (err, db.stmtClose)

/-- The part of `importTSV` after the transaction is begun and before the deferred
`tx.Rollback()` runs. -/
def importInTx {σ : Type} (U : Unicode) (env : Env) (E : Engine σ) (tsvPath : Str)
    (dropTable : Bool) (tableName : Str) (cols : List Str) (types : List colType)
    (db : Db σ) : Option Str × Db σ :=
  if dropTable = true then
    match db.exec E ("DROP TABLE IF EXISTS ".toList ++ QuoteIdent tableName) with
    | (some e, db) => (some ("drop table ".toList ++ tableName ++ ": ".toList ++ e), db)
    | (none, db) => importCreateAndLoad U env E tsvPath tableName cols types db
  else importCreateAndLoad U env E tsvPath tableName cols types db

/-- Go `importTSV`, without the messages printed when `verbose` is set: the error
returned (`none` for nil) and the database after; the outer `none` when
`DedupIdents` runs out of fuel. -/
def importTSV {σ : Type} (U : Unicode) (P : Strconv) (env : Env) (E : Engine σ)
    (fuel : Nat) (db : Db σ) (tsvPath : Str) (dropTable : Bool) :
    Option (Option Str × Db σ) :=
  let base := env.stem tsvPath
  let tableName := SanitizeIdent U base
  match readHeader (env.file tsvPath) with
  | Except.error e => some (some ("read header ".toList ++ tsvPath ++ ": ".toList ++ e), db)
  | Except.ok header =>
    if header.length = 0 then some (some ("empty header in ".toList ++ tsvPath), db)
    else
      match DedupIdents fuel (header.map (SanitizeIdent U)) with
      | none => none
      | some cols =>
        match inferColumnTypesFile U P (env.file tsvPath) cols.length with
        | Except.error e =>
          some (some ("infer column types ".toList ++ tsvPath ++ ": ".toList ++ e), db)
        | Except.ok types =>
          match db.beginTx E with
          | (some e, db) => some (some ("begin tx: ".toList ++ e), db)
          | (none, db) =>
            match importInTx U env E tsvPath dropTable tableName cols types db with
            | (err, db) => some (err, db.rollback)

/-- The number of header fields of a file, `0` when the header cannot be read. -/
def headerLength (f : TsvFile) : Nat :=
  match readHeader f with
  | Except.ok header => header.length
  | Except.error _ => 0

/-- The event is a statement execution that returned an error. -/
def FailedInsert (ev : DbEvent) : Prop :=
  ∃ args, ev = { call := DbCall.stmtExec args, ok := false }

/-- No event of the list is a failed statement execution or a commit. -/
def Quiet (evs : List DbEvent) : Prop :=
  ∀ ev ∈ evs, ¬ FailedInsert ev ∧ ev.call ≠ DbCall.commit

/-- What a run of the record loop from the database `db` ends in: the committed
contents are unchanged and the transaction is as open as before; the events added
are quiet, or they are quiet up to a final failed statement execution whose error
is returned. -/
def InsertOutcome {σ : Type} (db : Db σ) (r : (Nat × Option Str) × Db σ) : Prop :=
  r.2.committed = db.committed ∧ r.2.tx.isSome = db.tx.isSome ∧
  ((∃ evs, r.2.events = db.events ++ evs ∧ Quiet evs) ∨
   (∃ pre args e,
      r.2.events = db.events ++ pre ++ [{ call := DbCall.stmtExec args, ok := false }] ∧
      Quiet pre ∧ r.1.2 = some e))

/-- What a stage of `importTSV` from the database `db` ends in: either no event
added is a failed statement execution, or the events added are quiet up to a failed
statement execution followed by `tail`, the error names the file, the committed
contents are unchanged and the transaction is as open as before. -/
def TxOutcome {σ : Type} (tsvPath : Str) (tail : List DbEvent) (db : Db σ)
    (r : Option Str × Db σ) : Prop :=
  (∃ evs, r.2.events = db.events ++ evs ∧ ∀ ev ∈ evs, ¬ FailedInsert ev) ∨
  (∃ pre args e,
      r.2.events
        = db.events ++ pre ++ [{ call := DbCall.stmtExec args, ok := false }] ++ tail ∧
      Quiet pre ∧
      r.1 = some ("insert rows ".toList ++ tsvPath ++ ": ".toList ++ e) ∧
      r.2.committed = db.committed ∧ r.2.tx.isSome = db.tx.isSome)

/-- An engine for examples: the contents are the list of inserted argument lists,
and only the executions of the prepared statement on the arguments selected by
`fails` return an error. -/
def listEngine (fails : List SqlArg → Bool) : Engine (List (List SqlArg)) where
  beginTx _ := none
  exec w _ := Except.ok w
  prepare _ _ := none
  stmtExec w _ args :=
    if fails args = true then Except.error "boom".toList else Except.ok (w ++ [args])
  commit _ := none

/-- An environment for examples: every path holds the file with header `v` and the
given data rows, and its stem is `t`. -/
def oneFileEnv (rows : List (List Str)) : Env where
  file _ := { openErr := none, reads := Except.ok ["v".toList] :: rows.map Except.ok }
  stem _ := "t".toList

/-- The errors of the record reader: `io.EOF`, and the `csv.ParseError`s with the
causes `csv.ErrBareQuote` and `csv.ErrQuote`. -/
inductive CsvError where
  | eof
  | bareQuote
  | quote
  deriving DecidableEq

/-- Where the field loop of Go `encoding/csv` `Reader.readRecord` stands: at the
start of a field, inside a non-quoted field, inside a quoted field, or just after a
quote inside a quoted field. -/
inductive CsvMode where
  | fieldStart
  | unquoted
  | quoted
  | quoteSeen
  deriving DecidableEq

/-- The line ends as `readLine` of Go `encoding/csv` delivers them, on the whole
input: a `\r\n` that ends a line is rewritten to `\n`, and a `\r` that ends the
input is dropped; every other `\r` is kept. -/
def normalizeLineEnds : Str → Str
  | [] => []
  | [c] => if c = '\r' then [] else [c]
  | c :: d :: rest =>
    if c = '\r' ∧ d = '\n' then '\n' :: normalizeLineEnds rest
    else c :: normalizeLineEnds (d :: rest)

/-- Go `newTSVReader` on a stream with the content `input`: the state of the reader
is the input that is left to read, as `readLine` delivers it. -/
def newTSVReader (input : Str) : Str :=
  normalizeLineEnds input

/-- The field loop of Go `encoding/csv` `Reader.readRecord` as `newTSVReader`
configures the reader (`Comma = '\t'`, `LazyQuotes` and `TrimLeadingSpace` unset),
on the state of the reader: `fs` are the fields completed so far and `cur` is the
field being read; the result is the record and the state after it.  A field that
starts with a quote is read as a quoted field, which may run over line ends; a
quote inside a non-quoted field is `ErrBareQuote`; a quoted field that is not
closed, or whose closing quote is followed by anything but a quote, a tab or the end
of the line, is `ErrQuote`. -/
def csvScan : CsvMode → List Str → Str → Str → Except CsvError (List Str × Str)
  | CsvMode.fieldStart, fs, _, [] => Except.ok (fs ++ [[]], [])
  | CsvMode.fieldStart, fs, _, c :: rest =>
    if c = dq then csvScan CsvMode.quoted fs [] rest
    else if c = '\t' then csvScan CsvMode.fieldStart (fs ++ [[]]) [] rest
    else if c = '\n' then Except.ok (fs ++ [[]], rest)
    else csvScan CsvMode.unquoted fs [c] rest
  | CsvMode.unquoted, fs, cur, [] => Except.ok (fs ++ [cur], [])
  | CsvMode.unquoted, fs, cur, c :: rest =>
    if c = '\t' then csvScan CsvMode.fieldStart (fs ++ [cur]) [] rest
    else if c = '\n' then Except.ok (fs ++ [cur], rest)
    else if c = dq then Except.error CsvError.bareQuote
    else csvScan CsvMode.unquoted fs (cur ++ [c]) rest
  | CsvMode.quoted, _, _, [] => Except.error CsvError.quote
  | CsvMode.quoted, fs, cur, c :: rest =>
    if c = dq then csvScan CsvMode.quoteSeen fs cur rest
    else csvScan CsvMode.quoted fs (cur ++ [c]) rest
  | CsvMode.quoteSeen, fs, cur, [] => Except.ok (fs ++ [cur], [])
  | CsvMode.quoteSeen, fs, cur, c :: rest =>
    if c = dq then csvScan CsvMode.quoted fs (cur ++ [dq]) rest
    else if c = '\t' then csvScan CsvMode.fieldStart (fs ++ [cur]) [] rest
    else if c = '\n' then Except.ok (fs ++ [cur], rest)
    else Except.error CsvError.quote

/-- Go `r.Read()` on the state of a reader made by `newTSVReader`
(`FieldsPerRecord = -1`, so no field count is checked): empty lines are skipped, the
end of the input is `io.EOF`, else the next record is read. -/
def readRecord : Str → Except CsvError (List Str × Str)
  | [] => Except.error CsvError.eof
  | c :: rest =>
    if c = '\n' then readRecord rest
    else csvScan CsvMode.fieldStart [] [] (c :: rest)

/-! ## Decimal numerals -/

theorem toDigitsCore_acc (b : Nat) : ∀ (fuel n : Nat) (ds : List Char),
    Nat.toDigitsCore b fuel n ds = Nat.toDigitsCore b fuel n [] ++ ds := by
  intro fuel
  induction fuel with
  | zero => intro n ds; simp [Nat.toDigitsCore]
  | succ f ih =>
    intro n ds
    simp only [Nat.toDigitsCore]
    split
    · simp
    · rw [ih (n / b) (Nat.digitChar (n % b) :: ds), ih (n / b) [Nat.digitChar (n % b)]]
      simp

theorem toDigitsCore_fuel : ∀ (f₁ f₂ n : Nat) (ds : List Char), n < f₁ → n < f₂ →
    Nat.toDigitsCore 10 f₁ n ds = Nat.toDigitsCore 10 f₂ n ds := by
  intro f₁
  induction f₁ with
  | zero => intro f₂ n ds h; omega
  | succ f ih =>
    intro f₂ n ds h₁ h₂
    cases f₂ with
    | zero => omega
    | succ g =>
      simp only [Nat.toDigitsCore]
      split
      · rfl
      · rename_i hne
        have hlt : n / 10 < n := Nat.div_lt_self (by omega) (by decide)
        exact ih g (n / 10) _ (by omega) (by omega)

theorem toDigits_small (n : Nat) (h : n < 10) : Nat.toDigits 10 n = [Nat.digitChar n] := by
  have h0 : n / 10 = 0 := Nat.div_eq_of_lt h
  simp [Nat.toDigits, Nat.toDigitsCore, h0, Nat.mod_eq_of_lt h]

theorem toDigits_step (n : Nat) (h : 10 ≤ n) :
    Nat.toDigits 10 n = Nat.toDigits 10 (n / 10) ++ [Nat.digitChar (n % 10)] := by
  have h0 : n / 10 ≠ 0 := by omega
  have hlt : n / 10 < n := Nat.div_lt_self (by omega) (by decide)
  have e : Nat.toDigits 10 n = Nat.toDigitsCore 10 n (n / 10) [Nat.digitChar (n % 10)] := by
    simp [Nat.toDigits, Nat.toDigitsCore, h0]
  rw [e, toDigitsCore_acc, toDigitsCore_fuel n (n / 10 + 1) (n / 10) [] hlt (by omega)]
  rfl

theorem toDigits_ne_nil (n : Nat) : Nat.toDigits 10 n ≠ [] := by
  by_cases h : n < 10
  · simp [toDigits_small n h]
  · simp [toDigits_step n (by omega)]

theorem digitChar_inj : ∀ a b : Fin 10,
    Nat.digitChar a.val = Nat.digitChar b.val → a = b := by decide

theorem toDigits_inj : ∀ n m : Nat, Nat.toDigits 10 n = Nat.toDigits 10 m → n = m := by
  intro n
  induction n using Nat.strong_induction_on with
  | _ n ih =>
    intro m h
    by_cases hn : n < 10
    · by_cases hm : m < 10
      · rw [toDigits_small n hn, toDigits_small m hm] at h
        have := digitChar_inj ⟨n, hn⟩ ⟨m, hm⟩ (by simpa using h)
        simpa using congrArg Fin.val this
      · rw [toDigits_small n hn, toDigits_step m (by omega)] at h
        have hl := congrArg List.length h
        have hne := toDigits_ne_nil (m / 10)
        have : (Nat.toDigits 10 (m / 10)).length ≠ 0 := by
          simpa [List.length_eq_zero] using hne
        simp only [List.length_append, List.length_singleton, List.length_cons,
          List.length_nil] at hl
        omega
    · by_cases hm : m < 10
      · rw [toDigits_small m hm, toDigits_step n (by omega)] at h
        have hl := congrArg List.length h
        have hne := toDigits_ne_nil (n / 10)
        have : (Nat.toDigits 10 (n / 10)).length ≠ 0 := by
          simpa [List.length_eq_zero] using hne
        simp only [List.length_append, List.length_singleton, List.length_cons,
          List.length_nil] at hl
        omega
      · rw [toDigits_step n (by omega), toDigits_step m (by omega)] at h
        have h' := List.append_inj' h rfl
        have hq : n / 10 = m / 10 :=
          ih (n / 10) (Nat.div_lt_self (by omega) (by decide)) (m / 10) h'.1
        have hr : n % 10 = m % 10 := by
          have := digitChar_inj ⟨n % 10, Nat.mod_lt _ (by decide)⟩
            ⟨m % 10, Nat.mod_lt _ (by decide)⟩ (by simpa using h'.2)
          simpa using congrArg Fin.val this
        omega

theorem candidate_inj (base : Str) (n m : Nat) (h : candidate base n = candidate base m) :
    n = m := by
  unfold candidate at h
  have := List.append_cancel_left h
  exact toDigits_inj n m (by simpa using this)

theorem candidate_ne_base (base : Str) (n : Nat) : candidate base n ≠ base := by
  intro h
  have := congrArg List.length h
  simp [candidate] at this

/-! ## The `seen` map -/

theorem seenHas_put (seen : SeenMap) (k k' : Str) (v : Nat) :
    seenHas (seenPut seen k v) k' = true ↔ k = k' ∨ seenHas seen k' = true := by
  unfold seenPut
  rw [seenHas]
  by_cases h : k = k' <;> simp [h]

theorem seenGet_put (seen : SeenMap) (k k' : Str) (v : Nat) :
    seenGet (seenPut seen k v) k' = if k = k' then v else seenGet seen k' := by
  unfold seenPut
  rw [seenGet]

theorem seenGet_of_not_has : ∀ (seen : SeenMap) (k : Str),
    seenHas seen k = false → seenGet seen k = 0 := by
  intro seen
  induction seen with
  | nil => intro k _; rfl
  | cons p rest ih =>
    obtain ⟨k', v⟩ := p
    intro k h
    rw [seenHas] at h
    rw [seenGet]
    by_cases hk : k' = k
    · simp [hk] at h
    · simp only [hk, if_false] at h ⊢
      exact ih k h

theorem dedupInv_nil : DedupInv [] [] :=
  ⟨fun k => by simp [seenHas], fun k h => by simp at h,
   fun k j h₁ h₂ => by simp [seenGet] at h₂; omega, List.nodup_nil⟩

theorem dedupSearch_some (seen : SeenMap) (base : Str) : ∀ (fuel n m : Nat) (c : Str),
    dedupSearch seen base fuel n = some (m, c) →
      n < m ∧ c = candidate base m ∧ seenHas seen c = false ∧
      ∀ j, n < j → j < m → seenHas seen (candidate base j) = true := by
  intro fuel
  induction fuel with
  | zero => intro n m c h; simp [dedupSearch] at h
  | succ f ih =>
    intro n m c h
    rw [dedupSearch] at h
    by_cases hc : seenHas seen (candidate base (n + 1)) = true
    · simp only [hc, if_true] at h
      obtain ⟨h₁, h₂, h₃, h₄⟩ := ih (n + 1) m c h
      refine ⟨by omega, h₂, h₃, ?_⟩
      intro j hj₁ hj₂
      by_cases hj : j = n + 1
      · rw [hj]; exact hc
      · exact h₄ j (by omega) hj₂
    · simp only [hc] at h
      simp only [Bool.false_eq_true, if_false, Option.some.injEq, Prod.mk.injEq] at h
      obtain ⟨rfl, rfl⟩ := h
      refine ⟨by omega, rfl, by simpa using hc, ?_⟩
      intro j hj₁ hj₂
      omega

theorem dedupSearch_none (seen : SeenMap) (base : Str) : ∀ (fuel n : Nat),
    dedupSearch seen base fuel n = none →
      ∀ j, n < j → j ≤ n + fuel → seenHas seen (candidate base j) = true := by
  intro fuel
  induction fuel with
  | zero => intro n _ j h₁ h₂; omega
  | succ f ih =>
    intro n h j hj₁ hj₂
    rw [dedupSearch] at h
    by_cases hc : seenHas seen (candidate base (n + 1)) = true
    · simp only [hc, if_true] at h
      by_cases hj : j = n + 1
      · rw [hj]; exact hc
      · exact ih (n + 1) h j (by omega) (by omega)
    · simp [hc] at h

theorem dedupSearch_isSome (seen : SeenMap) (out : List Str) (base : Str) (fuel n : Nat)
    (inv : DedupInv seen out) (hf : out.length < fuel) :
    ∃ m c, dedupSearch seen base fuel n = some (m, c) := by
  cases h : dedupSearch seen base fuel n with
  | some r => exact ⟨r.1, r.2, rfl⟩
  | none =>
    exfalso
    have hall := dedupSearch_none seen base fuel n h
    have hsub : (List.range fuel).map (fun t => candidate base (n + 1 + t)) ⊆ out := by
      intro c hc
      simp only [List.mem_map, List.mem_range] at hc
      obtain ⟨t, ht, rfl⟩ := hc
      exact (inv.keys _).1 (hall (n + 1 + t) (by omega) (by omega))
    have hnd : ((List.range fuel).map (fun t => candidate base (n + 1 + t))).Nodup := by
      refine List.Nodup.map ?_ (List.nodup_range fuel)
      intro a b hab
      have := candidate_inj base _ _ hab
      omega
    have hle := (List.subperm_of_subset hnd hsub).length_le
    simp at hle
    omega

theorem dedupStep_spec (fuel : Nat) (seen : SeenMap) (out : List Str) (x : Str)
    (inv : DedupInv seen out) (hf : out.length < fuel) :
    ∃ seen' y, dedupStep fuel seen out x = some (seen', out ++ [y]) ∧
      DedupInv seen' (out ++ [y]) ∧ Assigned out x y := by
  by_cases h0 : seenGet seen x = 0
  · have hx : x ∉ out := by
      intro hx
      have := inv.pos x hx
      omega
    refine ⟨seenPut seen x 1, x, by simp [dedupStep, h0], ?_, ?_⟩
    · refine ⟨?_, ?_, ?_, ?_⟩
      · intro k
        rw [seenHas_put, inv.keys k, List.mem_append, List.mem_singleton]
        constructor
        · rintro (h | h)
          · exact Or.inr h.symm
          · exact Or.inl h
        · rintro (h | h)
          · exact Or.inr h
          · exact Or.inl h.symm
      · intro k hk
        rw [seenGet_put]
        split
        · exact le_refl 1
        · rename_i hne
          rw [List.mem_append, List.mem_singleton] at hk
          rcases hk with hk | hk
          · exact inv.pos k hk
          · exact absurd hk.symm hne
      · intro k j hj₁ hj₂
        rw [seenGet_put] at hj₂
        split at hj₂
        · omega
        · exact List.mem_append_left _ (inv.used k j hj₁ hj₂)
      · exact List.Nodup.append inv.nodup (List.nodup_singleton x)
          (fun a ha hb => hx (List.mem_singleton.1 hb ▸ ha))
    · exact ⟨fun _ => rfl, fun h => absurd h hx⟩
  · have hx : x ∈ out := by
      by_contra hx
      have hh : seenHas seen x = false := by
        cases hs : seenHas seen x with
        | false => rfl
        | true => exact absurd ((inv.keys x).1 hs) hx
      exact h0 (seenGet_of_not_has seen x hh)
    obtain ⟨m, c, hs⟩ := dedupSearch_isSome seen out x fuel (seenGet seen x) inv hf
    obtain ⟨hm, hc, hfree, hbelow⟩ := dedupSearch_some seen x fuel (seenGet seen x) m c hs
    have hcout : c ∉ out := by
      intro hmem
      have := (inv.keys c).2 hmem
      rw [hfree] at this
      exact Bool.false_ne_true this
    have hcx : c ≠ x := by
      rw [hc]; exact candidate_ne_base x m
    refine ⟨seenPut (seenPut seen x m) c 1, c, by simp [dedupStep, h0, hs], ?_, ?_⟩
    · refine ⟨?_, ?_, ?_, ?_⟩
      · intro k
        rw [seenHas_put, seenHas_put, inv.keys k, List.mem_append, List.mem_singleton]
        constructor
        · rintro (h | h | h)
          · exact Or.inr h.symm
          · exact Or.inl (h ▸ hx)
          · exact Or.inl h
        · rintro (h | h)
          · exact Or.inr (Or.inr h)
          · exact Or.inl h.symm
      · intro k hk
        rw [seenGet_put, seenGet_put]
        split
        · exact le_refl 1
        · rename_i hne
          split
          · omega
          · rw [List.mem_append, List.mem_singleton] at hk
            rcases hk with hk | hk
            · exact inv.pos k hk
            · exact absurd hk.symm hne
      · intro k j hj₁ hj₂
        rw [seenGet_put, seenGet_put] at hj₂
        split at hj₂
        · omega
        · split at hj₂
          · rename_i _ hxk
            subst hxk
            by_cases hjm : j = m
            · rw [hjm, ← hc]; simp
            · by_cases hjn : j ≤ seenGet seen x
              · exact List.mem_append_left _ (inv.used x j hj₁ hjn)
              · exact List.mem_append_left _
                  ((inv.keys _).1 (hbelow j (by omega) (by omega)))
          · exact List.mem_append_left _ (inv.used k j hj₁ hj₂)
      · exact List.Nodup.append inv.nodup (List.nodup_singleton c)
          (fun a ha hb => hcout (List.mem_singleton.1 hb ▸ ha))
    · refine ⟨fun h => absurd hx h, fun _ => ⟨m, by omega, hc, hc ▸ hcout, ?_⟩⟩
      intro M hM₁ hM₂
      by_cases hMn : M ≤ seenGet seen x
      · exact inv.used x M hM₁ hMn
      · exact (inv.keys _).1 (hbelow M (by omega) hM₂)

theorem dedupLoop_spec (fuel : Nat) : ∀ (xs : List Str) (seen : SeenMap) (out : List Str),
    DedupInv seen out → out.length + xs.length ≤ fuel →
    ∃ ys, dedupLoop fuel seen out xs = some (out ++ ys) ∧ ys.length = xs.length ∧
      (out ++ ys).Nodup ∧
      ∀ i x, xs[i]? = some x → ∃ y, ys[i]? = some y ∧ Assigned (out ++ ys.take i) x y := by
  intro xs
  induction xs with
  | nil =>
    intro seen out inv _
    exact ⟨[], by simp [dedupLoop], rfl, by simpa using inv.nodup, by simp⟩
  | cons x rest ih =>
    intro seen out inv hf
    simp only [List.length_cons] at hf
    obtain ⟨seen', y, hstep, inv', hy⟩ := dedupStep_spec fuel seen out x inv (by omega)
    obtain ⟨ys, hrun, hlen, hnd, hspec⟩ := ih seen' (out ++ [y]) inv'
      (by simp only [List.length_append, List.length_singleton]; omega)
    refine ⟨y :: ys, ?_, by simp [hlen], by simpa using hnd, ?_⟩
    · rw [dedupLoop, hstep]
      simpa using hrun
    · intro i x' hx'
      cases i with
      | zero =>
        simp only [List.getElem?_cons_zero, Option.some.injEq] at hx'
        subst hx'
        exact ⟨y, by simp, by simpa using hy⟩
      | succ i =>
        simp only [List.getElem?_cons_succ] at hx'
        obtain ⟨y', hy', ha⟩ := hspec i x' hx'
        exact ⟨y', by simpa using hy', by simpa using ha⟩

/-! ## Claims on `DedupIdents` -/

/-- C1: for every list of identifiers `xs`, `DedupIdents xs` returns (fuel equal to
the length of `xs`, or more, is enough for each inner loop), and what it returns
has the length of `xs` and pairwise distinct entries. -/
theorem DedupIdents_length_nodup (fuel : Nat) (xs : List Str) (hf : xs.length ≤ fuel) :
    ∃ out, DedupIdents fuel xs = some out ∧ out.length = xs.length ∧ out.Nodup := by
  obtain ⟨ys, hrun, hlen, hnd, _⟩ := dedupLoop_spec fuel xs [] [] dedupInv_nil (by simpa using hf)
  exact ⟨ys, by simpa [DedupIdents] using hrun, hlen, by simpa using hnd⟩

/-- Witness of C1 on the header `id, name, id, id_2`. -/
theorem DedupIdents_length_nodup_witness :
    ∃ out, DedupIdents 4 ["id".toList, "name".toList, "id".toList, "id_2".toList] = some out ∧
      out.length = ["id".toList, "name".toList, "id".toList, "id_2".toList].length ∧
      out.Nodup :=
  DedupIdents_length_nodup 4 ["id".toList, "name".toList, "id".toList, "id_2".toList]
    (by decide)

/-- C2: with `out = DedupIdents xs`, entry `i` of `out` is `xs[i]` when `xs[i]` does
not occur among `out[0..i)`, and otherwise it is `xs[i] ++ "_" ++ decimal N` for the
least `N ≥ 2` whose candidate does not occur among `out[0..i)`; and
`DedupIdents ["id","name","id","id_2"] = ["id","name","id_2","id_2_2"]`. -/
theorem DedupIdents_assigns_least_free :
    (∀ (fuel : Nat) (xs : List Str), xs.length ≤ fuel →
      ∃ out, DedupIdents fuel xs = some out ∧
        ∀ i x, xs[i]? = some x → ∃ y, out[i]? = some y ∧
          (x ∉ out.take i → y = x) ∧
          (x ∈ out.take i → ∃ N, 2 ≤ N ∧ y = x ++ '_' :: Nat.toDigits 10 N ∧
            x ++ '_' :: Nat.toDigits 10 N ∉ out.take i ∧
            ∀ M, 2 ≤ M → M < N → x ++ '_' :: Nat.toDigits 10 M ∈ out.take i)) ∧
    DedupIdents 4 ["id".toList, "name".toList, "id".toList, "id_2".toList]
      = some ["id".toList, "name".toList, "id_2".toList, "id_2_2".toList] := by
  refine ⟨?_, by decide⟩
  intro fuel xs hf
  obtain ⟨ys, hrun, _, _, hspec⟩ :=
    dedupLoop_spec fuel xs [] [] dedupInv_nil (by simpa using hf)
  refine ⟨ys, by simpa [DedupIdents] using hrun, ?_⟩
  intro i x hx
  obtain ⟨y, hy, ha⟩ := hspec i x hx
  exact ⟨y, hy, by simpa [Assigned, candidate] using ha⟩

/-- Witness of C2 on the header `id, name, id, id_2`. -/
theorem DedupIdents_assigns_least_free_witness :
    ∃ out, DedupIdents 4 ["id".toList, "name".toList, "id".toList, "id_2".toList] = some out ∧
      ∀ i x, ["id".toList, "name".toList, "id".toList, "id_2".toList][i]? = some x →
        ∃ y, out[i]? = some y ∧
          (x ∉ out.take i → y = x) ∧
          (x ∈ out.take i → ∃ N, 2 ≤ N ∧ y = x ++ '_' :: Nat.toDigits 10 N ∧
            x ++ '_' :: Nat.toDigits 10 N ∉ out.take i ∧
            ∀ M, 2 ≤ M → M < N → x ++ '_' :: Nat.toDigits 10 M ∈ out.take i) :=
  DedupIdents_assigns_least_free.1 4
    ["id".toList, "name".toList, "id".toList, "id_2".toList] (by decide)

/-- C3 as stated fails: in `["id","id","id_2"]` the name `id_2` occurs first at
index 2, and `DedupIdents` returns `id_2_2` there, because `id_2` was already
assigned to the second `id`. -/
theorem DedupIdents_first_occurrence_counterexample :
    ["id".toList, "id".toList, "id_2".toList] ≠ [] ∧
    ["id".toList, "id".toList, "id_2".toList][2]? = some "id_2".toList ∧
    "id_2".toList ∉ ["id".toList, "id".toList, "id_2".toList].take 2 ∧
    DedupIdents 3 ["id".toList, "id".toList, "id_2".toList]
      = some ["id".toList, "id_2".toList, "id_2_2".toList] ∧
    ["id".toList, "id_2".toList, "id_2_2".toList][2]? ≠ some "id_2".toList := by
  decide

/-- C3, amended: for every non-empty list `xs` and every index `i` such that `xs[i]`
occurs neither in `xs[0..i)` nor among the names `DedupIdents(xs)[0..i)` assigned
before it, `DedupIdents(xs)[i] = xs[i]`. -/
theorem DedupIdents_first_occurrence_kept (fuel : Nat) (xs : List Str) (_hne : xs ≠ [])
    (hf : xs.length ≤ fuel) :
    ∃ out, DedupIdents fuel xs = some out ∧
      ∀ i x, xs[i]? = some x → x ∉ xs.take i → x ∉ out.take i → out[i]? = some x := by
  obtain ⟨ys, hrun, _, _, hspec⟩ :=
    dedupLoop_spec fuel xs [] [] dedupInv_nil (by simpa using hf)
  refine ⟨ys, by simpa [DedupIdents] using hrun, ?_⟩
  intro i x hx _ hout
  obtain ⟨y, hy, ha⟩ := hspec i x hx
  have : y = x := ha.1 (by simpa using hout)
  rw [hy, this]

/-- Witness of the amended C3 on the header `id, id, id_2`. -/
theorem DedupIdents_first_occurrence_kept_witness :
    ∃ out, DedupIdents 3 ["id".toList, "id".toList, "id_2".toList] = some out ∧
      ∀ i x, ["id".toList, "id".toList, "id_2".toList][i]? = some x →
        x ∉ ["id".toList, "id".toList, "id_2".toList].take i → x ∉ out.take i →
        out[i]? = some x :=
  DedupIdents_first_occurrence_kept 3 ["id".toList, "id".toList, "id_2".toList]
    (by decide) (by decide)

/-! ## Claims on `SanitizeIdent` -/

theorem trim_head_not (p : Char → Bool) (l : Str)
    (h : (l.dropWhile p).rdropWhile p ≠ []) :
    p (((l.dropWhile p).rdropWhile p).head h) = false := by
  have hpre : (l.dropWhile p).rdropWhile p <+: l.dropWhile p := List.rdropWhile_prefix p _
  rw [hpre.head h]
  exact List.head_dropWhile_not p l _

theorem trim_getLast_not (p : Char → Bool) (l : Str)
    (h : (l.dropWhile p).rdropWhile p ≠ []) :
    p (((l.dropWhile p).rdropWhile p).getLast h) = false := by
  have := List.rdropWhile_last_not p (l.dropWhile p) h
  simpa using this

theorem trimUnderscores_head (l : Str) : (trimUnderscores l).head? ≠ some '_' := by
  intro h
  have hne : trimUnderscores l ≠ [] := by
    intro e; rw [e] at h; simp at h
  rw [List.head?_eq_head hne] at h
  have := trim_head_not (fun c => c == '_') l hne
  simp only [Option.some.injEq] at h
  unfold trimUnderscores at h
  rw [h] at this
  simp at this

theorem trimUnderscores_getLast (l : Str) : (trimUnderscores l).getLast? ≠ some '_' := by
  intro h
  have hne : trimUnderscores l ≠ [] := by
    intro e; rw [e] at h; simp at h
  rw [List.getLast?_eq_getLast _ hne] at h
  have := trim_getLast_not (fun c => c == '_') l hne
  simp only [Option.some.injEq] at h
  unfold trimUnderscores at h
  rw [h] at this
  simp at this

theorem trimUnderscores_all (l : Str) (h : ∀ c ∈ l, c = '_') : trimUnderscores l = [] := by
  unfold trimUnderscores
  have : l.dropWhile (fun c => c == '_') = [] := by
    rw [List.dropWhile_eq_nil_iff]
    intro c hc
    simp [h c hc]
  rw [this]
  simp

theorem TrimSpace_subset (U : Unicode) (s : Str) : TrimSpace U s ⊆ s := by
  unfold TrimSpace
  exact fun c hc => (List.dropWhile_suffix U.isSpace).subset
    ((List.rdropWhile_prefix U.isSpace _).subset hc)

/-- The four ways in which `SanitizeIdent` returns. -/
theorem SanitizeIdent_cases (U : Unicode) (s : Str) :
    SanitizeIdent U s = "col".toList ∨
    (trimUnderscores ((TrimSpace U s).map (sanitizeRune U)) ≠ [] ∧
      ((startsWithAsciiDigit (trimUnderscores ((TrimSpace U s).map (sanitizeRune U))) = true ∧
        SanitizeIdent U s
          = "c_".toList ++ trimUnderscores ((TrimSpace U s).map (sanitizeRune U))) ∨
       (startsWithAsciiDigit (trimUnderscores ((TrimSpace U s).map (sanitizeRune U))) = false ∧
        SanitizeIdent U s = trimUnderscores ((TrimSpace U s).map (sanitizeRune U))))) := by
  unfold SanitizeIdent
  by_cases h1 : TrimSpace U s = []
  · left; simp [h1]
  · by_cases h2 : trimUnderscores ((TrimSpace U s).map (sanitizeRune U)) = []
    · left; simp [h1, h2]
    · right
      refine ⟨h2, ?_⟩
      cases h3 : startsWithAsciiDigit (trimUnderscores ((TrimSpace U s).map (sanitizeRune U)))
      · right; simp [h1, h2, h3]
      · left; simp [h1, h2, h3]

/-- C5: for every raw string `s`, `SanitizeIdent s` is non-empty, its first
character is not one of `'0'..'9'`, it has no leading and no trailing underscore,
and it is `"col"` whenever `s` contains no letter and no digit. -/
theorem SanitizeIdent_shape (U : Unicode) (s : Str) :
    SanitizeIdent U s ≠ [] ∧
    (∀ c, (SanitizeIdent U s).head? = some c → ¬ ('0'.toNat ≤ c.toNat ∧ c.toNat ≤ '9'.toNat)) ∧
    (SanitizeIdent U s).head? ≠ some '_' ∧
    (SanitizeIdent U s).getLast? ≠ some '_' ∧
    ((∀ c ∈ s, U.isLetter c = false ∧ U.isDigit c = false) →
      SanitizeIdent U s = "col".toList) := by
  have hlast : (∀ c ∈ s, U.isLetter c = false ∧ U.isDigit c = false) →
      SanitizeIdent U s = "col".toList := by
    intro hall
    have hm : trimUnderscores ((TrimSpace U s).map (sanitizeRune U)) = [] := by
      apply trimUnderscores_all
      intro c hc
      rw [List.mem_map] at hc
      obtain ⟨r, hr, rfl⟩ := hc
      have := hall r (TrimSpace_subset U s hr)
      unfold sanitizeRune
      by_cases hu : r = '_'
      · simp [hu]
      · simp [hu, this.1, this.2]
    rcases SanitizeIdent_cases U s with h | ⟨h, _⟩
    · exact h
    · exact absurd hm h
  rcases SanitizeIdent_cases U s with h | ⟨hne, ⟨hd, h⟩ | ⟨hd, h⟩⟩
  · rw [h]
    refine ⟨by decide, ?_, by decide, by decide, fun _ => rfl⟩
    intro c hc
    have : c = 'c' := by
      have : some 'c' = some c := hc
      exact (Option.some.inj this).symm
    rw [this]; decide
  · refine ⟨by rw [h]; simp, ?_, ?_, ?_, hlast⟩
    · intro c hc
      rw [h] at hc
      have : c = 'c' := by
        have : some 'c' = some c := hc
        exact (Option.some.inj this).symm
      rw [this]; decide
    · rw [h]
      show some 'c' ≠ some '_'
      decide
    · rw [h, List.getLast?_append_of_ne_nil _ hne]
      exact trimUnderscores_getLast _
  · refine ⟨by rw [h]; exact hne, ?_, ?_, ?_, hlast⟩
    · intro c hc
      rw [h] at hc
      cases ho : trimUnderscores ((TrimSpace U s).map (sanitizeRune U)) with
      | nil => exact absurd ho hne
      | cons a rest =>
        rw [ho] at hc hd
        simp only [List.head?_cons, Option.some.injEq] at hc
        subst hc
        simpa [startsWithAsciiDigit] using hd
    · rw [h]; exact trimUnderscores_head _
    · rw [h]; exact trimUnderscores_getLast _

/-- C4, the code at the input `"é"`: `unicode.IsLetter` holds of U+00E9 and
`unicode.IsSpace` does not, so `SanitizeIdent` returns `"é"` unchanged, a character
outside `[A-Za-z0-9_]`. -/
theorem SanitizeIdent_keeps_non_ascii_letter (U : Unicode)
    (hsp : U.isSpace 'é' = false) (hl : U.isLetter 'é' = true) :
    SanitizeIdent U ['é'] = ['é'] ∧ isAsciiWordChar 'é' = false := by
  refine ⟨?_, by decide⟩
  have ht : TrimSpace U ['é'] = ['é'] := by
    simp [TrimSpace, List.rdropWhile, hsp]
  have hm : trimUnderscores ['é'] = ['é'] := by decide
  have hr : sanitizeRune U 'é' = 'é' := by simp [sanitizeRune, hl]
  have hd : startsWithAsciiDigit ['é'] = false := by decide
  simp [SanitizeIdent, ht, hr, hm, hd]

/-- Witness of `SanitizeIdent_keeps_non_ascii_letter` with the Latin-1 classes. -/
theorem SanitizeIdent_keeps_non_ascii_letter_witness :
    SanitizeIdent latin1Unicode ['é'] = ['é'] ∧ isAsciiWordChar 'é' = false :=
  SanitizeIdent_keeps_non_ascii_letter latin1Unicode (by decide) (by decide)

/-- Witness of C5 with the Latin-1 classes on the raw strings `" 9 lives! "` and
`" -- "`. -/
theorem SanitizeIdent_shape_witness :
    SanitizeIdent latin1Unicode " 9 lives! ".toList = "c_9_lives".toList ∧
    SanitizeIdent latin1Unicode " -- ".toList = "col".toList :=
  ⟨by decide, (SanitizeIdent_shape latin1Unicode " -- ".toList).2.2.2.2 (by decide)⟩

/-! ## Claims on `QuoteIdent` -/

theorem escapeQuotes_cons (c : Char) (s : Str) :
    escapeQuotes (c :: s) = (if c = dq then [dq, dq] else [c]) ++ escapeQuotes s := by
  simp [escapeQuotes]

theorem escapeQuotes_eq_nil (s : Str) (h : escapeQuotes s = []) : s = [] := by
  cases s with
  | nil => rfl
  | cons c s =>
    rw [escapeQuotes_cons] at h
    split at h <;> simp at h

theorem unescape_escape : ∀ s : Str, unescapeQuotes (escapeQuotes s) = s := by
  intro s
  induction s with
  | nil => rfl
  | cons c s ih =>
    rw [escapeQuotes_cons]
    by_cases hc : c = dq
    · simp only [hc, if_true, List.cons_append, List.nil_append]
      rw [unescapeQuotes]
      simp [ih]
    · simp only [hc, if_false, List.cons_append, List.nil_append]
      cases he : escapeQuotes s with
      | nil =>
        have := escapeQuotes_eq_nil s he
        subst this
        rfl
      | cons d rest =>
        rw [unescapeQuotes]
        simp only [hc, false_and, if_false]
        rw [← he, ih]

theorem UnquoteIdent_QuoteIdent (s : Str) : UnquoteIdent (QuoteIdent s) = s := by
  unfold UnquoteIdent QuoteIdent
  simp [unescape_escape]

theorem escapeQuotes_leading_run : ∀ (s : Str) (k : Nat) (b : Str),
    escapeQuotes s = List.replicate k dq ++ b → b.head? ≠ some dq → Even k := by
  intro s
  induction s with
  | nil =>
    intro k b h hb
    cases k with
    | zero => exact even_zero
    | succ k => simp [escapeQuotes, List.replicate_succ] at h
  | cons c s ih =>
    intro k b h hb
    rw [escapeQuotes_cons] at h
    by_cases hc : c = dq
    · simp only [hc, if_true, List.cons_append, List.nil_append] at h
      cases k with
      | zero =>
        simp only [List.replicate_zero, List.nil_append] at h
        rw [← h] at hb
        simp at hb
      | succ k =>
        cases k with
        | zero =>
          simp only [List.replicate_succ, List.replicate_zero, List.cons_append,
            List.nil_append, List.cons.injEq, true_and] at h
          rw [← h] at hb
          simp at hb
        | succ k =>
          simp only [List.replicate_succ, List.cons_append, List.cons.injEq, true_and] at h
          have := ih k b h hb
          exact Nat.even_add_one.2 (Nat.not_even_iff_odd.2 (Even.add_one this))
    · simp only [hc, if_false, List.cons_append, List.nil_append] at h
      cases k with
      | zero => exact even_zero
      | succ k =>
        simp only [List.replicate_succ, List.cons_append, List.cons.injEq] at h
        exact absurd h.1 hc

theorem escapeQuotes_runs_even : ∀ (s a : Str) (k : Nat) (b : Str),
    escapeQuotes s = a ++ List.replicate k dq ++ b →
    a.getLast? ≠ some dq → b.head? ≠ some dq → Even k := by
  intro s
  induction s with
  | nil =>
    intro a k b h ha hb
    cases a with
    | nil => exact escapeQuotes_leading_run [] k b (by simpa using h) hb
    | cons x a => simp [escapeQuotes] at h
  | cons c s ih =>
    intro a k b h ha hb
    cases a with
    | nil => exact escapeQuotes_leading_run (c :: s) k b (by simpa using h) hb
    | cons x a =>
      rw [escapeQuotes_cons] at h
      by_cases hc : c = dq
      · simp only [hc, if_true, List.cons_append, List.nil_append, List.cons.injEq] at h
        obtain ⟨hx, h⟩ := h
        cases a with
        | nil =>
          rw [← hx] at ha
          simp at ha
        | cons y a =>
          simp only [List.cons_append, List.cons.injEq] at h
          refine ih a k b h.2 ?_ hb
          cases a with
          | nil => simp
          | cons z a =>
            simpa [List.getLast?_cons_cons] using ha
      · simp only [hc, if_false, List.cons_append, List.nil_append, List.cons.injEq] at h
        refine ih a k b h.2 ?_ hb
        cases a with
        | nil => simp
        | cons z a =>
          simpa [List.getLast?_cons_cons] using ha

/-- C6: `QuoteIdent s` is a double quote, then `s` with every double quote doubled,
then a double quote; un-quoting returns `s`; `QuoteIdent` is injective; and every
maximal run of double quotes strictly inside the outer pair has even length. -/
theorem QuoteIdent_spec :
    (∀ s : Str, QuoteIdent s
      = dq :: (s.map (fun c => if c = dq then [dq, dq] else [c])).flatten ++ [dq]) ∧
    (∀ s : Str, UnquoteIdent (QuoteIdent s) = s) ∧
    Function.Injective QuoteIdent ∧
    (∀ (s a b : Str) (k : Nat),
      ((QuoteIdent s).drop 1).dropLast = a ++ List.replicate k dq ++ b →
      a.getLast? ≠ some dq → b.head? ≠ some dq → Even k) := by
  refine ⟨?_, UnquoteIdent_QuoteIdent, ?_, ?_⟩
  · intro s
    simp [QuoteIdent, escapeQuotes, List.flatMap]
  · intro s t h
    have := congrArg UnquoteIdent h
    rwa [UnquoteIdent_QuoteIdent, UnquoteIdent_QuoteIdent] at this
  · intro s a b k h ha hb
    have hq : ((QuoteIdent s).drop 1).dropLast = escapeQuotes s := by
      simp [QuoteIdent]
    rw [hq] at h
    exact escapeQuotes_runs_even s a k b h ha hb

/-- Witness of C6 on the identifier `a"b`: its quoted form is `"a""b"`, whose inner
run of two quotes is maximal. -/
theorem QuoteIdent_spec_witness :
    QuoteIdent ['a', dq, 'b'] = [dq, 'a', dq, dq, 'b', dq] ∧ Even 2 :=
  ⟨by decide, QuoteIdent_spec.2.2.2 ['a', dq, 'b'] ['a'] ['b'] 2 (by decide) (by decide)
    (by decide)⟩

/-! ## Claims on `inferColumnTypes` -/

theorem getD_set_same (l : List Bool) (i : Nat) (b d : Bool) (h : i < l.length) :
    (l.set i b).getD i d = b := by
  simp [List.getD_eq_getElem?_getD, List.getElem?_set, h]

theorem getD_set_other (l : List Bool) (i j : Nat) (b d : Bool) (h : j ≠ i) :
    (l.set i b).getD j d = l.getD j d := by
  simp [List.getD_eq_getElem?_getD, List.getElem?_set, h.symm]

theorem inferCell_len (U : Unicode) (P : Strconv) (rec : List Str) (n : Nat)
    (st : InferState) (i : Nat) (h : StateLen n st) :
    StateLen n (inferCell U P rec st i) := by
  obtain ⟨h₁, h₂, h₃⟩ := h
  unfold inferCell StateLen
  simp only []
  split_ifs <;> simp [h₁, h₂, h₃]

theorem inferCell_other (U : Unicode) (P : Strconv) (rec : List Str)
    (st : InferState) (i j : Nat) (h : j ≠ i) :
    colView (inferCell U P rec st i) j = colView st j := by
  unfold inferCell colView
  simp only []
  split_ifs <;> simp [List.getElem?_set, Ne.symm h]

theorem inferCell_same (U : Unicode) (P : Strconv) (rec : List Str) (n : Nat)
    (st : InferState) (i : Nat) (h : StateLen n st) (hi : i < n) :
    colView (inferCell U P rec st i) i = cellUpdate P (fieldValue U rec i) (colView st i) := by
  obtain ⟨h₁, h₂, h₃⟩ := h
  unfold inferCell colView cellUpdate
  simp only []
  have hi₁ : i < st.canInt.length := h₁ ▸ hi
  have hi₂ : i < st.canReal.length := h₂ ▸ hi
  have hi₃ : i < st.seenValue.length := h₃ ▸ hi
  split_ifs <;> simp_all [List.getElem?_set]

theorem inferCells_spec (U : Unicode) (P : Strconv) (rec : List Str) (n : Nat)
    (st : InferState) (h : StateLen n st) : ∀ m, m ≤ n →
    StateLen n ((List.range m).foldl (inferCell U P rec) st) ∧
    ∀ j, colView ((List.range m).foldl (inferCell U P rec) st) j
      = if j < m then cellUpdate P (fieldValue U rec j) (colView st j) else colView st j := by
  intro m
  induction m with
  | zero => intro _; exact ⟨by simpa using h, by simp⟩
  | succ m ih =>
    intro hm
    obtain ⟨hl, hv⟩ := ih (by omega)
    rw [List.range_succ, List.foldl_append]
    simp only [List.foldl_cons, List.foldl_nil]
    refine ⟨inferCell_len U P rec n _ m hl, ?_⟩
    intro j
    by_cases hj : j = m
    · subst hj
      rw [inferCell_same U P rec n _ j hl (by omega), hv j]
      simp
    · rw [inferCell_other U P rec _ m j hj, hv j]
      by_cases hlt : j < m
      · simp [hlt, Nat.lt_succ_of_lt hlt]
      · have : ¬ j < m + 1 := by omega
        simp [hlt, this]

theorem fieldValue_of_isAllEmpty (U : Unicode) : ∀ (rec : List Str),
    isAllEmpty U rec = true → ∀ j, fieldValue U rec j = [] := by
  intro rec
  induction rec with
  | nil => intro _ j; simp [fieldValue]
  | cons s rest ih =>
    intro h j
    rw [isAllEmpty] at h
    by_cases hs : TrimSpace U s = []
    · simp only [hs, ne_eq, not_true_eq_false, if_false] at h
      cases j with
      | zero => simpa [fieldValue] using hs
      | succ j => simpa [fieldValue] using ih h j
    · simp [hs] at h

theorem inferRow_spec (U : Unicode) (P : Strconv) (n : Nat) (st : InferState)
    (rec : List Str) (h : StateLen n st) :
    StateLen n (inferRow U P n st rec) ∧
    ∀ j, j < n → colView (inferRow U P n st rec) j
      = cellUpdate P (fieldValue U rec j) (colView st j) := by
  unfold inferRow
  by_cases he : isAllEmpty U rec = true
  · simp only [he, if_true]
    refine ⟨h, fun j _ => ?_⟩
    simp [cellUpdate, fieldValue_of_isAllEmpty U rec he j]
  · rw [if_neg he]
    obtain ⟨hl, hv⟩ := inferCells_spec U P rec n st h n (le_refl n)
    refine ⟨hl, fun j hj => ?_⟩
    rw [hv j]
    simp [hj]

theorem inferRows_spec (U : Unicode) (P : Strconv) (n : Nat) :
    ∀ (rows : List (List Str)) (st : InferState), StateLen n st →
    StateLen n (rows.foldl (inferRow U P n) st) ∧
    ∀ j, j < n → colView (rows.foldl (inferRow U P n) st) j
      = rows.foldl (fun t rec => cellUpdate P (fieldValue U rec j) t) (colView st j) := by
  intro rows
  induction rows with
  | nil => intro st h; exact ⟨h, fun j _ => rfl⟩
  | cons rec rows ih =>
    intro st h
    obtain ⟨hl, hv⟩ := inferRow_spec U P n st rec h
    obtain ⟨hl', hv'⟩ := ih (inferRow U P n st rec) hl
    simp only [List.foldl_cons]
    refine ⟨hl', fun j hj => ?_⟩
    rw [hv' j hj, hv j hj]

theorem columnValues_cons (U : Unicode) (rec : List Str) (rows : List (List Str)) (j : Nat) :
    columnValues U (rec :: rows) j
      = if fieldValue U rec j = [] then columnValues U rows j
        else fieldValue U rec j :: columnValues U rows j := by
  unfold columnValues fieldValue
  rw [List.filterMap_cons]
  cases hr : rec[j]? with
  | none => simp
  | some s =>
    by_cases hs : TrimSpace U s = []
    · simp [hs]
    · simp [hs]

theorem cellUpdate_fold (U : Unicode) (P : Strconv) (j : Nat) :
    ∀ (rows : List (List Str)) (s a b : Bool),
    rows.foldl (fun t rec => cellUpdate P (fieldValue U rec j) t) (s, a, b)
      = (s || !(columnValues U rows j).isEmpty,
         a && (columnValues U rows j).all P.parsesInt,
         b && (columnValues U rows j).all P.parsesFloat) := by
  intro rows
  induction rows with
  | nil => intro s a b; simp [columnValues]
  | cons rec rows ih =>
    intro s a b
    rw [List.foldl_cons, columnValues_cons]
    by_cases hv : fieldValue U rec j = []
    · have e : cellUpdate P (fieldValue U rec j) (s, a, b) = (s, a, b) := by
        simp [cellUpdate, hv]
      show List.foldl _ (cellUpdate P (fieldValue U rec j) (s, a, b)) rows = _
      rw [e, if_pos hv]
      exact ih s a b
    · have e : cellUpdate P (fieldValue U rec j) (s, a, b)
          = (true, a && P.parsesInt (fieldValue U rec j),
              b && P.parsesFloat (fieldValue U rec j)) := by
        simp [cellUpdate, hv]
      show List.foldl _ (cellUpdate P (fieldValue U rec j) (s, a, b)) rows = _
      rw [e, if_neg hv, ih]
      simp [Bool.and_assoc]

theorem inferInitStep_spec (n m : Nat) (st : InferState) (h : StateLen n st) (hm : m < n) :
    StateLen n (inferInitStep st m) ∧
    ∀ j, colView (inferInitStep st m) j
      = if j = m then ((colView st j).1, true, true) else colView st j := by
  obtain ⟨h₁, h₂, h₃⟩ := h
  have hm₁ : m < st.canInt.length := h₁ ▸ hm
  have hm₂ : m < st.canReal.length := h₂ ▸ hm
  refine ⟨by simp [StateLen, inferInitStep, h₁, h₂, h₃], fun j => ?_⟩
  by_cases hj : j = m
  · subst hj
    simp [colView, inferInitStep, List.getElem?_set, hm₁, hm₂]
  · simp [colView, inferInitStep, List.getElem?_set, hj, Ne.symm hj]

theorem inferInit_spec (n : Nat) :
    StateLen n (inferInit n) ∧ ∀ j, j < n → colView (inferInit n) j = (false, true, true) := by
  have key : ∀ m, m ≤ n →
      StateLen n ((List.range m).foldl inferInitStep
        { canInt := List.replicate n false, canReal := List.replicate n false,
          seenValue := List.replicate n false }) ∧
      ∀ j, j < n → colView ((List.range m).foldl inferInitStep
        { canInt := List.replicate n false, canReal := List.replicate n false,
          seenValue := List.replicate n false }) j
        = (false, decide (j < m), decide (j < m)) := by
    intro m
    induction m with
    | zero =>
      intro _
      refine ⟨by simp [StateLen], fun j hj => ?_⟩
      simp [colView, List.getElem?_replicate, hj]
    | succ m ih =>
      intro hm
      obtain ⟨hl, hv⟩ := ih (by omega)
      rw [List.range_succ, List.foldl_append]
      simp only [List.foldl_cons, List.foldl_nil]
      obtain ⟨hl', hv'⟩ := inferInitStep_spec n m _ hl (by omega)
      refine ⟨hl', fun j hj => ?_⟩
      rw [hv' j, hv j hj]
      by_cases hjm : j = m
      · simp [hjm]
      · have : (j < m + 1) ↔ (j < m) := by omega
        simp [hjm, this]
  obtain ⟨hl, hv⟩ := key n (le_refl n)
  refine ⟨hl, fun j hj => ?_⟩
  have := hv j hj
  simpa [inferInit, hj] using this

theorem resolveType_eq (st : InferState) (i : Nat) (V : List Str) (P : Strconv)
    (h : colView st i = (!V.isEmpty, V.all P.parsesInt, V.all P.parsesFloat)) :
    resolveType st i = typeOfValues P V := by
  simp only [colView, Prod.mk.injEq] at h
  obtain ⟨h₁, h₂, h₃⟩ := h
  unfold resolveType typeOfValues
  rw [h₁, h₂, h₃]
  cases V with
  | nil => simp
  | cons v V => simp

/-- The type list has one entry per column, and entry `i` is the type that the
values of column `i` resolve to. -/
theorem inferColumnTypes_get (U : Unicode) (P : Strconv) (rows : List (List Str)) (n : Nat) :
    (inferColumnTypes U P rows n).length = n ∧
    ∀ i, i < n →
      (inferColumnTypes U P rows n)[i]? = some (typeOfValues P (columnValues U rows i)) := by
  refine ⟨by simp [inferColumnTypes], fun i hi => ?_⟩
  obtain ⟨hl, hv⟩ := inferInit_spec n
  obtain ⟨_, hv'⟩ := inferRows_spec U P n rows (inferInit n) hl
  have hview := hv' i hi
  rw [hv i hi, cellUpdate_fold] at hview
  simp only [Bool.false_or, Bool.true_and] at hview
  unfold inferColumnTypes
  simp only [List.getElem?_map, List.getElem?_range hi, Option.map_some']
  rw [resolveType_eq _ i _ P hview]

theorem TrimSpace_id (U : Unicode) (s : Str) (h : ∀ c ∈ s, U.isSpace c = false) :
    TrimSpace U s = s := by
  unfold TrimSpace
  have hd : s.dropWhile U.isSpace = s := by
    cases s with
    | nil => rfl
    | cons c r =>
      have := h c (List.mem_cons_self c r)
      simp [List.dropWhile_cons, this]
  rw [hd, List.rdropWhile_eq_self_iff]
  intro hl
  have := h _ (List.getLast_mem hl)
  simp [this]

theorem inferColumnTypes_eq_of (U : Unicode) (P : Strconv) (rows : List (List Str))
    (l : List colType)
    (h : ∀ i, i < l.length → l[i]? = some (typeOfValues P (columnValues U rows i))) :
    inferColumnTypes U P rows l.length = l := by
  obtain ⟨hlen, hget⟩ := inferColumnTypes_get U P rows l.length
  apply List.ext_getElem?
  intro i
  by_cases hi : i < l.length
  · rw [hget i hi, h i hi]
  · rw [List.getElem?_eq_none (by omega), List.getElem?_eq_none (by omega)]

theorem typeOfValues_perm (P : Strconv) (V W : List Str) (h : V.Perm W) :
    typeOfValues P V = typeOfValues P W := by
  have e₀ : V = [] ↔ W = [] := by
    constructor
    · intro hv; subst hv; exact h.nil_eq.symm
    · intro hw; subst hw; exact h.eq_nil
  have e₁ : V.all P.parsesInt = W.all P.parsesInt := by
    rw [Bool.eq_iff_iff]
    simp only [List.all_eq_true]
    exact ⟨fun hv x hx => hv x (h.mem_iff.2 hx), fun hw x hx => hw x (h.mem_iff.1 hx)⟩
  have e₂ : V.all P.parsesFloat = W.all P.parsesFloat := by
    rw [Bool.eq_iff_iff]
    simp only [List.all_eq_true]
    exact ⟨fun hv x hx => hv x (h.mem_iff.2 hx), fun hw x hx => hw x (h.mem_iff.1 hx)⟩
  unfold typeOfValues
  rw [e₁, e₂]
  by_cases hv : V = []
  · rw [if_pos hv, if_pos (e₀.1 hv)]
  · rw [if_neg hv, if_neg (fun hw => hv (e₀.2 hw))]

theorem typeOfValues_append_rank (P : Strconv) (V W : List Str) (hV : V ≠ []) :
    (typeOfValues P V).rank ≤ (typeOfValues P (V ++ W)).rank := by
  have hVW : V ++ W ≠ [] := by simp [hV]
  unfold typeOfValues
  rw [if_neg hV, if_neg hVW, List.all_append, List.all_append]
  cases V.all P.parsesInt <;> cases V.all P.parsesFloat <;>
    cases W.all P.parsesInt <;> cases W.all P.parsesFloat <;> simp [colType.rank]

/-- C7: the inference pass returns exactly `columnCount` types, and the type of
column `i` is Text when `V_i` (the non-empty trimmed values at index `i`) is empty,
else Integer when every value of `V_i` parses as an integer, else Real when every
value parses as a float, else Text.  With parsers and white space that treat the
strings of the examples as Go does: rows `[1,3.5,A],[2,,B]` give Integer, Real, Text,
and a column `1, 2, x` gives Text; a column with only empty values gives Text. -/
theorem inferColumnTypes_spec (U : Unicode) (P : Strconv) :
    (∀ (rows : List (List Str)) (n : Nat),
      (inferColumnTypes U P rows n).length = n ∧
      ∀ i, i < n → (inferColumnTypes U P rows n)[i]? = some
        (if columnValues U rows i = [] then colType.colText
         else if (columnValues U rows i).all P.parsesInt = true then colType.colInteger
         else if (columnValues U rows i).all P.parsesFloat = true then colType.colReal
         else colType.colText)) ∧
    ((∀ c ∈ "123.5ABx".toList, U.isSpace c = false) →
      P.parsesInt "1".toList = true → P.parsesInt "2".toList = true →
      P.parsesInt "3.5".toList = false → P.parsesFloat "3.5".toList = true →
      P.parsesInt "A".toList = false → P.parsesFloat "A".toList = false →
      P.parsesInt "x".toList = false → P.parsesFloat "x".toList = false →
      inferColumnTypes U P
          [["1".toList, "3.5".toList, "A".toList], ["2".toList, [], "B".toList]] 3
        = [colType.colInteger, colType.colReal, colType.colText] ∧
      inferColumnTypes U P [["1".toList], ["2".toList], ["x".toList]] 1
        = [colType.colText]) ∧
    (∀ (rows : List (List Str)) (n i : Nat), i < n →
      (∀ rec ∈ rows, ∀ s, rec[i]? = some s → TrimSpace U s = []) →
      (inferColumnTypes U P rows n)[i]? = some colType.colText) := by
  refine ⟨fun rows n => ⟨(inferColumnTypes_get U P rows n).1, fun i hi => ?_⟩, ?_, ?_⟩
  · rw [(inferColumnTypes_get U P rows n).2 i hi]
    rfl
  · intro hsp h1 h2 h35i h35f hAi hAf hxi hxf
    have t (s : Str) (hs : ∀ c ∈ s, c ∈ "123.5ABx".toList) : TrimSpace U s = s :=
      TrimSpace_id U s (fun c hc => hsp c (hs c hc))
    have t1 : TrimSpace U ['1'] = ['1'] := t "1".toList (by decide)
    have t2 : TrimSpace U ['2'] = ['2'] := t "2".toList (by decide)
    have t35 : TrimSpace U ['3', '.', '5'] = ['3', '.', '5'] := t "3.5".toList (by decide)
    have tA : TrimSpace U ['A'] = ['A'] := t "A".toList (by decide)
    have tB : TrimSpace U ['B'] = ['B'] := t "B".toList (by decide)
    have tx : TrimSpace U ['x'] = ['x'] := t "x".toList (by decide)
    have t0 : TrimSpace U [] = [] := TrimSpace_id U [] (by simp)
    have h1' : P.parsesInt ['1'] = true := h1
    have h2' : P.parsesInt ['2'] = true := h2
    have h35i' : P.parsesInt ['3', '.', '5'] = false := h35i
    have h35f' : P.parsesFloat ['3', '.', '5'] = true := h35f
    have hAi' : P.parsesInt ['A'] = false := hAi
    have hAf' : P.parsesFloat ['A'] = false := hAf
    have hxi' : P.parsesInt ['x'] = false := hxi
    have hxf' : P.parsesFloat ['x'] = false := hxf
    constructor
    · refine inferColumnTypes_eq_of U P _
        [colType.colInteger, colType.colReal, colType.colText] ?_
      intro i hi
      simp only [List.length_cons, List.length_nil] at hi
      interval_cases i
      · simp [columnValues, typeOfValues, t1, t2, h1', h2']
      · simp [columnValues, typeOfValues, t35, t0, h35i', h35f']
      · simp [columnValues, typeOfValues, tA, tB, hAi', hAf']
    · refine inferColumnTypes_eq_of U P _ [colType.colText] ?_
      intro i hi
      simp only [List.length_cons, List.length_nil] at hi
      interval_cases i
      simp [columnValues, typeOfValues, t1, t2, tx, hxi', hxf']
  · intro rows n i hi hall
    rw [(inferColumnTypes_get U P rows n).2 i hi]
    have hV : columnValues U rows i = [] := by
      unfold columnValues
      rw [List.filterMap_eq_nil_iff]
      intro rec hrec
      cases hr : rec[i]? with
      | none => rfl
      | some s => simp [hall rec hrec s hr]
    simp [typeOfValues, hV]

/-- Witness of C7 with the Latin-1 classes and the parsers of short decimals. -/
theorem inferColumnTypes_spec_witness :
    inferColumnTypes latin1Unicode decimalStrconv
        [["1".toList, "3.5".toList, "A".toList], ["2".toList, [], "B".toList]] 3
      = [colType.colInteger, colType.colReal, colType.colText] ∧
    inferColumnTypes latin1Unicode decimalStrconv [["1".toList], ["2".toList], ["x".toList]] 1
      = [colType.colText] :=
  (inferColumnTypes_spec latin1Unicode decimalStrconv).2.1 (by decide) (by decide) (by decide)
    (by decide) (by decide) (by decide) (by decide) (by decide) (by decide)

/-- C8: type inference does not depend on the order of the rows: two row lists
that are permutations of each other give the same type list. -/
theorem inferColumnTypes_perm (U : Unicode) (P : Strconv) (n : Nat)
    (rows rows' : List (List Str)) (h : rows.Perm rows') :
    inferColumnTypes U P rows n = inferColumnTypes U P rows' n := by
  obtain ⟨hlen, hget⟩ := inferColumnTypes_get U P rows n
  obtain ⟨hlen', hget'⟩ := inferColumnTypes_get U P rows' n
  apply List.ext_getElem?
  intro i
  by_cases hi : i < n
  · rw [hget i hi, hget' i hi]
    exact congrArg some (typeOfValues_perm P _ _ (h.filterMap _))
  · rw [List.getElem?_eq_none (by omega), List.getElem?_eq_none (by omega)]

/-- Witness of C8: the rows `[1, x]`, `[2.5, 3]` in both orders. -/
theorem inferColumnTypes_perm_witness :
    inferColumnTypes latin1Unicode decimalStrconv
        [["1".toList, "x".toList], ["2.5".toList, "3".toList]] 2
      = inferColumnTypes latin1Unicode decimalStrconv
        [["2.5".toList, "3".toList], ["1".toList, "x".toList]] 2 :=
  inferColumnTypes_perm latin1Unicode decimalStrconv 2
    [["1".toList, "x".toList], ["2.5".toList, "3".toList]]
    [["2.5".toList, "3".toList], ["1".toList, "x".toList]] (List.Perm.swap _ _ [])

/-- C9: with the order `Integer < Real < Text`, for a column `i` that has a
non-empty trimmed value in `rs`, the type inferred from `rs ++ rs'` is at least as
wide as the type inferred from `rs`. -/
theorem inferColumnTypes_widens (U : Unicode) (P : Strconv) (n : Nat)
    (rs rs' : List (List Str)) (i : Nat) (hi : i < n) (hv : columnValues U rs i ≠ []) :
    ∃ t t', (inferColumnTypes U P rs n)[i]? = some t ∧
      (inferColumnTypes U P (rs ++ rs') n)[i]? = some t' ∧ t.rank ≤ t'.rank := by
  refine ⟨_, _, (inferColumnTypes_get U P rs n).2 i hi,
    (inferColumnTypes_get U P (rs ++ rs') n).2 i hi, ?_⟩
  have : columnValues U (rs ++ rs') i = columnValues U rs i ++ columnValues U rs' i := by
    simp [columnValues, List.filterMap_append]
  rw [this]
  exact typeOfValues_append_rank P _ _ hv

/-- Witness of C9: the column `1` followed by the row `2.5` widens from Integer to
Real. -/
theorem inferColumnTypes_widens_witness :
    ∃ t t', (inferColumnTypes latin1Unicode decimalStrconv [["1".toList]] 1)[0]? = some t ∧
      (inferColumnTypes latin1Unicode decimalStrconv ([["1".toList]] ++ [["2.5".toList]]) 1)[0]?
        = some t' ∧ t.rank ≤ t'.rank :=
  inferColumnTypes_widens latin1Unicode decimalStrconv 1 [["1".toList]] [["2.5".toList]] 0
    (by decide) (by decide)

/-! ## Claims on `buildCreateTableSQL` -/

theorem intercalate_cons_eq (sep x : Str) (xs : List Str) :
    sep.intercalate (x :: xs) = x ++ (xs.map (fun d => sep ++ d)).flatten := by
  induction xs generalizing x with
  | nil => simp [List.intercalate]
  | cons y ys ih =>
    have := ih y
    simp only [List.intercalate] at this ⊢
    rw [List.intersperse_cons₂, List.flatten_cons, List.flatten_cons, this]
    simp

theorem colDefs_length (types : List colType) (pk : Int) : ∀ (rest : List Str) (i : Nat),
    (colDefs types pk i rest).length = rest.length := by
  intro rest
  induction rest with
  | nil => intro i; rfl
  | cons c rest ih => intro i; simp [colDefs, ih]

theorem colDefs_get (types : List colType) (pk : Int) : ∀ (rest : List Str) (i k : Nat),
    (colDefs types pk i rest)[k]? = (rest[k]?).map (colDef types pk (i + k)) := by
  intro rest
  induction rest with
  | nil => intro i k; simp [colDefs]
  | cons c rest ih =>
    intro i k
    cases k with
    | zero => simp [colDefs]
    | succ k =>
      simp only [colDefs, List.getElem?_cons_succ]
      rw [ih (i + 1) k]
      have : i + 1 + k = i + (k + 1) := by omega
      rw [this]

theorem writeColumns_pos (types : List colType) (pk : Int) :
    ∀ (rest : List Str) (i : Nat) (b : Str), 0 < i →
    writeColumns types pk i rest b
      = b ++ ((colDefs types pk i rest).map (fun d => ", ".toList ++ d)).flatten := by
  intro rest
  induction rest with
  | nil => intro i b _; simp [writeColumns, colDefs]
  | cons c rest ih =>
    intro i b hi
    rw [writeColumns]
    simp only [hi, if_true]
    rw [ih (i + 1) _ (by omega)]
    simp only [colDefs, colDef, List.map_cons, List.flatten_cons]
    split <;> simp [List.append_assoc]

theorem writeColumns_zero (types : List colType) (pk : Int) (cols : List Str) (b : Str) :
    writeColumns types pk 0 cols b = b ++ ", ".toList.intercalate (colDefs types pk 0 cols) := by
  cases cols with
  | nil => simp [writeColumns, colDefs, List.intercalate]
  | cons c rest =>
    rw [writeColumns]
    simp only [lt_self_iff_false, if_false]
    rw [writeColumns_pos types pk rest 1 _ (by omega)]
    simp only [colDefs, intercalate_cons_eq, colDef]
    split <;> simp [List.append_assoc]

theorem findPkCol_spec (types : List colType) : ∀ (rest : List Str) (i : Nat),
    (findPkCol types i rest = -1 ∧
      ∀ k c, rest[k]? = some c →
        ¬ (equalFoldId c = true ∧ types[i + k]? = some colType.colInteger)) ∨
    (∃ k c, rest[k]? = some c ∧
      (equalFoldId c = true ∧ types[i + k]? = some colType.colInteger) ∧
      (∀ k' c', k' < k → rest[k']? = some c' →
        ¬ (equalFoldId c' = true ∧ types[i + k']? = some colType.colInteger)) ∧
      findPkCol types i rest = ((i + k : Nat) : Int)) := by
  intro rest
  induction rest with
  | nil => intro i; left; simp [findPkCol]
  | cons c rest ih =>
    intro i
    by_cases hq : equalFoldId c = true ∧ types[i]? = some colType.colInteger
    · right
      refine ⟨0, c, by simp, by simpa using hq, ?_, ?_⟩
      · intro k' c' hk'; omega
      · rw [findPkCol, if_pos hq]; simp
    · rcases ih (i + 1) with ⟨h₁, h₂⟩ | ⟨k, c', hk, hqk, hmin, hres⟩
      · left
        refine ⟨by rw [findPkCol, if_neg hq]; exact h₁, ?_⟩
        intro k c' hk
        cases k with
        | zero =>
          simp only [List.getElem?_cons_zero, Option.some.injEq] at hk
          subst hk
          simpa using hq
        | succ k =>
          simp only [List.getElem?_cons_succ] at hk
          have := h₂ k c' hk
          have e : i + 1 + k = i + (k + 1) := by omega
          rwa [e] at this
      · right
        have e : i + 1 + k = i + (k + 1) := by omega
        refine ⟨k + 1, c', by simpa using hk, by rw [← e]; exact hqk, ?_, ?_⟩
        · intro k' c'' hk' hget
          cases k' with
          | zero =>
            simp only [List.getElem?_cons_zero, Option.some.injEq] at hget
            subst hget
            simpa using hq
          | succ k' =>
            simp only [List.getElem?_cons_succ] at hget
            have := hmin k' c'' (by omega) hget
            have e' : i + 1 + k' = i + (k' + 1) := by omega
            rwa [e'] at this
        · rw [findPkCol, if_neg hq, hres, e]

theorem qualifies_iff (cols : List Str) (types : List colType) (j : Nat) :
    qualifies cols types j = true ↔
      ∃ c, cols[j]? = some c ∧ equalFoldId c = true ∧ types[j]? = some colType.colInteger := by
  unfold qualifies
  cases hc : cols[j]? with
  | none => simp
  | some c =>
    cases ht : types[j]? with
    | none => simp
    | some t => simp

theorem findPkCol_iff (cols : List Str) (types : List colType) (j : Nat) :
    (j : Int) = findPkCol types 0 cols ↔ IsPrimaryKey cols types j := by
  rcases findPkCol_spec types cols 0 with ⟨h₁, h₂⟩ | ⟨k, c, hk, hqk, hmin, hres⟩
  · rw [h₁]
    constructor
    · intro h; omega
    · rintro ⟨hq, _⟩
      obtain ⟨c, hc, he, ht⟩ := (qualifies_iff cols types j).1 hq
      exact absurd ⟨he, by simpa using ht⟩ (h₂ j c hc)
  · simp only [Nat.zero_add] at hqk hmin hres
    have hqk' : qualifies cols types k = true :=
      (qualifies_iff cols types k).2 ⟨c, hk, hqk.1, hqk.2⟩
    rw [hres]
    constructor
    · intro h
      have hjk : j = k := by omega
      subst hjk
      refine ⟨hqk', fun j' hj' => ?_⟩
      cases hq : qualifies cols types j' with
      | false => rfl
      | true =>
        obtain ⟨c', hc', he', ht'⟩ := (qualifies_iff cols types j').1 hq
        exact absurd ⟨he', ht'⟩ (hmin j' c' hj' hc')
    · rintro ⟨hq, hlt⟩
      obtain ⟨c', hc', he', ht'⟩ := (qualifies_iff cols types j).1 hq
      have h₁ : ¬ j < k := fun h => hmin j c' h hc' ⟨he', ht'⟩
      have h₂ : ¬ k < j := fun h => by
        have := hlt k h
        rw [hqk'] at this
        exact Bool.noConfusion this
      have : j = k := by omega
      rw [this]

/-- C10: for a column list and a type list of equal length, `buildCreateTableSQL`
returns `CREATE TABLE IF NOT EXISTS <quoted table> (<definitions joined by ", ">)`,
where definition `i` is the quoted column, a space and the type, followed by
` PRIMARY KEY` exactly when `i` is the smallest index whose name equals `id`
case-insensitively and whose type is Integer; at most one index is so marked, and
none when no column qualifies. -/
theorem buildCreateTableSQL_spec (table : Str) (cols : List Str) (types : List colType)
    (hlen : cols.length = types.length) :
    ∃ defs : List Str,
      buildCreateTableSQL table cols types = Except.ok
        ("CREATE TABLE IF NOT EXISTS ".toList ++ QuoteIdent table ++ " (".toList ++
          ", ".toList.intercalate defs ++ ")".toList) ∧
      defs.length = cols.length ∧
      (∀ i c t, cols[i]? = some c → types[i]? = some t →
        (IsPrimaryKey cols types i →
          defs[i]? = some (QuoteIdent c ++ " ".toList ++ t.str ++ " PRIMARY KEY".toList)) ∧
        (¬ IsPrimaryKey cols types i →
          defs[i]? = some (QuoteIdent c ++ " ".toList ++ t.str))) ∧
      (∀ i j, IsPrimaryKey cols types i → IsPrimaryKey cols types j → i = j) ∧
      ((∀ i, qualifies cols types i = false) → ∀ i, ¬ IsPrimaryKey cols types i) := by
  refine ⟨colDefs types (findPkCol types 0 cols) 0 cols, ?_, colDefs_length _ _ _ _, ?_, ?_, ?_⟩
  · unfold buildCreateTableSQL
    simp only [hlen, ne_eq, not_true_eq_false, if_false]
    rw [writeColumns_zero]
  · intro i c t hc ht
    have hget : (colDefs types (findPkCol types 0 cols) 0 cols)[i]?
        = some (colDef types (findPkCol types 0 cols) i c) := by
      rw [colDefs_get, hc]
      simp
    have htt : typeText types i = t.str := by simp [typeText, ht]
    constructor
    · intro hpk
      rw [hget, colDef, htt, if_pos ((findPkCol_iff cols types i).2 hpk)]
    · intro hpk
      have : ¬ (i : Int) = findPkCol types 0 cols :=
        fun h => hpk ((findPkCol_iff cols types i).1 h)
      rw [hget, colDef, htt, if_neg this]
      simp
  · intro i j hi hj
    have h₁ := (findPkCol_iff cols types i).2 hi
    have h₂ := (findPkCol_iff cols types j).2 hj
    omega
  · intro hnone i hi
    have := hi.1
    rw [hnone i] at this
    exact Bool.noConfusion this

/-- Witness of C10: of the columns `ID TEXT`, `id INTEGER`, `Id INTEGER` the second
is the primary key. -/
theorem buildCreateTableSQL_spec_witness :
    buildCreateTableSQL "t".toList ["ID".toList, "id".toList, "Id".toList]
        [colType.colText, colType.colInteger, colType.colInteger]
      = Except.ok ("CREATE TABLE IF NOT EXISTS \"t\" ".toList ++
          "(\"ID\" TEXT, \"id\" INTEGER PRIMARY KEY, \"Id\" INTEGER)".toList) ∧
    ∃ defs : List Str,
      buildCreateTableSQL "t".toList ["ID".toList, "id".toList, "Id".toList]
          [colType.colText, colType.colInteger, colType.colInteger]
        = Except.ok ("CREATE TABLE IF NOT EXISTS ".toList ++ QuoteIdent "t".toList ++
            " (".toList ++ ", ".toList.intercalate defs ++ ")".toList) ∧
      defs.length = 3 :=
  ⟨rfl,
   (buildCreateTableSQL_spec "t".toList ["ID".toList, "id".toList, "Id".toList]
      [colType.colText, colType.colInteger, colType.colInteger] rfl).imp
     (fun _ h => ⟨h.1, h.2.1⟩)⟩

/-! ## Claims on `buildInsertSQL` -/

theorem writeInsertColumns_pos : ∀ (rest : List Str) (i : Nat) (b : Str), 0 < i →
    writeInsertColumns i rest b
      = b ++ ((rest.map QuoteIdent).map (fun d => ", ".toList ++ d)).flatten := by
  intro rest
  induction rest with
  | nil => intro i b _; simp [writeInsertColumns]
  | cons c rest ih =>
    intro i b hi
    rw [writeInsertColumns]
    simp only [hi, if_true]
    rw [ih (i + 1) _ (by omega)]
    simp [List.append_assoc]

theorem writeInsertColumns_zero (cols : List Str) (b : Str) :
    writeInsertColumns 0 cols b = b ++ ", ".toList.intercalate (cols.map QuoteIdent) := by
  cases cols with
  | nil => simp [writeInsertColumns, List.intercalate]
  | cons c rest =>
    rw [writeInsertColumns]
    simp only [lt_self_iff_false, if_false]
    rw [writeInsertColumns_pos rest 1 _ (by omega)]
    simp only [List.map_cons, intercalate_cons_eq]
    simp [List.append_assoc]

theorem writePlaceholders_pos : ∀ (rest : List Str) (i : Nat) (b : Str), 0 < i →
    writePlaceholders i rest b
      = b ++ ((List.replicate rest.length "?".toList).map
          (fun d => ", ".toList ++ d)).flatten := by
  intro rest
  induction rest with
  | nil => intro i b _; simp [writePlaceholders]
  | cons c rest ih =>
    intro i b hi
    rw [writePlaceholders]
    simp only [hi, if_true]
    rw [ih (i + 1) _ (by omega)]
    simp [List.replicate_succ, List.append_assoc]

theorem writePlaceholders_zero (cols : List Str) (b : Str) :
    writePlaceholders 0 cols b
      = b ++ ", ".toList.intercalate (List.replicate cols.length "?".toList) := by
  cases cols with
  | nil => simp [writePlaceholders, List.intercalate]
  | cons c rest =>
    rw [writePlaceholders]
    simp only [lt_self_iff_false, if_false]
    rw [writePlaceholders_pos rest 1 _ (by omega)]
    simp only [List.length_cons, List.replicate_succ, intercalate_cons_eq]
    simp [List.append_assoc]

/-- C11: `buildInsertSQL` returns `INSERT INTO <quoted table> (<quoted columns joined
by ", ">) VALUES (<one "?" per column joined by ", ">)`, the columns in the order of
`cols`. -/
theorem buildInsertSQL_spec (table : Str) (cols : List Str) :
    buildInsertSQL table cols
      = "INSERT INTO ".toList ++ QuoteIdent table ++ " (".toList ++
          ", ".toList.intercalate (cols.map QuoteIdent) ++ ") VALUES (".toList ++
          ", ".toList.intercalate (List.replicate cols.length "?".toList) ++ ")".toList := by
  unfold buildInsertSQL
  simp only []
  rw [writePlaceholders_zero, writeInsertColumns_zero]

/-! ## Claims on the arguments of the insert pass -/

theorem setArg_eq (U : Unicode) (rec : List Str) (args : List SqlArg) (i : Nat) :
    setArg U rec args i = args.set i (some (fieldValue U rec i)) := by
  unfold setArg fieldValue
  cases rec[i]? <;> rfl

theorem buildArgs_fold (U : Unicode) (rec : List Str) (n : Nat) : ∀ m, m ≤ n →
    ((List.range m).foldl (setArg U rec) (List.replicate n none)).length = n ∧
    ∀ j, ((List.range m).foldl (setArg U rec) (List.replicate n none))[j]?
      = if j < m then some (some (fieldValue U rec j))
        else (List.replicate n (none : SqlArg))[j]? := by
  intro m
  induction m with
  | zero => intro _; simp
  | succ m ih =>
    intro hm
    obtain ⟨hl, hv⟩ := ih (by omega)
    rw [List.range_succ, List.foldl_append]
    simp only [List.foldl_cons, List.foldl_nil]
    rw [setArg_eq]
    refine ⟨by simp [hl], fun j => ?_⟩
    rw [List.getElem?_set]
    by_cases hj : m = j
    · subst hj
      simp [hl]
      omega
    · rw [if_neg hj, hv j]
      by_cases hlt : j < m
      · simp [hlt, Nat.lt_succ_of_lt hlt]
      · have : ¬ j < m + 1 := by omega
        simp [hlt, this]

theorem buildArgs_length (U : Unicode) (rec : List Str) (n : Nat) :
    (buildArgs U rec n).length = n :=
  (buildArgs_fold U rec n n (le_refl n)).1

theorem buildArgs_get (U : Unicode) (rec : List Str) (n i : Nat) (hi : i < n) :
    (buildArgs U rec n)[i]? = some (some (fieldValue U rec i)) := by
  unfold buildArgs
  rw [(buildArgs_fold U rec n n (le_refl n)).2 i, if_pos hi]

theorem fieldValue_take (U : Unicode) (rec : List Str) (n i : Nat) (hi : i < n) :
    fieldValue U (rec.take n) i = fieldValue U rec i := by
  unfold fieldValue
  rw [List.getElem?_take_of_lt hi]

theorem buildArgs_take (U : Unicode) (rec : List Str) (n : Nat) :
    buildArgs U (rec.take n) n = buildArgs U rec n := by
  apply List.ext_getElem?
  intro i
  by_cases hi : i < n
  · rw [buildArgs_get U _ n i hi, buildArgs_get U _ n i hi, fieldValue_take U rec n i hi]
  · rw [List.getElem?_eq_none (by rw [buildArgs_length]; omega),
      List.getElem?_eq_none (by rw [buildArgs_length]; omega)]

theorem isAllEmpty_append (U : Unicode) : ∀ (a b : List Str),
    isAllEmpty U (a ++ b) = (isAllEmpty U a && isAllEmpty U b) := by
  intro a
  induction a with
  | nil => intro b; simp [isAllEmpty]
  | cons s a ih =>
    intro b
    simp only [List.cons_append, isAllEmpty]
    by_cases hs : TrimSpace U s = []
    · simp [hs, ih b]
    · simp [hs]

/-- C12: for a data row `rec` that is not entirely empty, the insert pass builds an
argument list of length `columnCount` whose argument `i` is the trimmed `rec[i]`
when `i < len(rec)` and the empty string otherwise; it is built whatever
`len(rec)` is. -/
theorem insertRow_args (U : Unicode) (rec : List Str) (colCount : Nat)
    (h : isAllEmpty U rec = false) :
    ∃ args, insertRow U colCount rec = some args ∧ args.length = colCount ∧
      (∀ i s, i < colCount → rec[i]? = some s → args[i]? = some (some (TrimSpace U s))) ∧
      (∀ i, i < colCount → rec.length ≤ i → args[i]? = some (some [])) := by
  refine ⟨buildArgs U rec colCount, by simp [insertRow, h], buildArgs_length U rec colCount,
    ?_, ?_⟩
  · intro i s hi hs
    rw [buildArgs_get U rec colCount i hi]
    simp [fieldValue, hs]
  · intro i hi hlen
    rw [buildArgs_get U rec colCount i hi]
    simp [fieldValue, List.getElem?_eq_none hlen]

/-- Witness of C12: the row `[" a "]` with three columns. -/
theorem insertRow_args_witness :
    ∃ args, insertRow latin1Unicode 3 [" a ".toList] = some args ∧ args.length = 3 ∧
      (∀ i s, i < 3 → [" a ".toList][i]? = some s →
        args[i]? = some (some (TrimSpace latin1Unicode s))) ∧
      (∀ i, i < 3 → [" a ".toList].length ≤ i → args[i]? = some (some [])) :=
  insertRow_args latin1Unicode [" a ".toList] 3 (by decide)

/-- C13 as stated fails: with one column, the row `["", "x"]` is inserted with the
argument `""`, while its truncation `[""]` is skipped as entirely empty. -/
theorem insertRow_extras_counterexample :
    1 < [[], "x".toList].length ∧
    insertRow latin1Unicode 1 [[], "x".toList] = some [some []] ∧
    insertRow latin1Unicode 1 ([[], "x".toList].take 1) = none := by
  decide

/-- C13, amended: for a data row `rec` with more fields than columns, the argument
list built from `rec` is the one built from `rec` truncated to its first
`columnCount` fields; and when the first `columnCount` fields are not all blank, or
the extra fields are all blank, the insert pass treats `rec` exactly as its
truncation: same skip-or-insert decision, same arguments, same calls, same count. -/
theorem insertRow_extras (U : Unicode) (colCount : Nat) (rec : List Str)
    (_hlen : colCount < rec.length) :
    buildArgs U rec colCount = buildArgs U (rec.take colCount) colCount ∧
    ((isAllEmpty U (rec.take colCount) = false ∨ isAllEmpty U (rec.drop colCount) = true) →
      insertRow U colCount rec = insertRow U colCount (rec.take colCount) ∧
      ∀ (σ : Type) (E : Engine σ) (sql : Str) (rest : List (Except Str (List Str)))
        (inserted : Nat) (db : Db σ),
        insertLoop U E sql colCount (Except.ok rec :: rest) inserted db
          = insertLoop U E sql colCount (Except.ok (rec.take colCount) :: rest) inserted db) := by
  refine ⟨(buildArgs_take U rec colCount).symm, fun h => ?_⟩
  have hsplit : isAllEmpty U rec
      = (isAllEmpty U (rec.take colCount) && isAllEmpty U (rec.drop colCount)) := by
    rw [← isAllEmpty_append, List.take_append_drop]
  have hdec : isAllEmpty U rec = isAllEmpty U (rec.take colCount) := by
    rw [hsplit]
    rcases h with h | h
    · simp [h]
    · simp [h]
  have hrow : insertRow U colCount rec = insertRow U colCount (rec.take colCount) := by
    unfold insertRow
    rw [hdec, buildArgs_take]
  refine ⟨hrow, fun σ E sql rest inserted db => ?_⟩
  rw [insertLoop, insertLoop, hrow]

/-- Witness of the amended C13: with one column, the row `["a", "x"]`. -/
theorem insertRow_extras_witness :
    buildArgs latin1Unicode ["a".toList, "x".toList] 1
      = buildArgs latin1Unicode (["a".toList, "x".toList].take 1) 1 ∧
    insertRow latin1Unicode 1 ["a".toList, "x".toList]
      = insertRow latin1Unicode 1 (["a".toList, "x".toList].take 1) :=
  ⟨(insertRow_extras latin1Unicode 1 ["a".toList, "x".toList] (by decide)).1,
   ((insertRow_extras latin1Unicode 1 ["a".toList, "x".toList] (by decide)).2
      (Or.inl (by decide))).1⟩

/-! ## Further claims on `buildCreateTableSQL` -/

/-- C16: `buildCreateTableSQL` returns an error exactly when the column list and
the type list differ in length; when the lengths are equal it returns statement
text. -/
theorem buildCreateTableSQL_error_iff (table : Str) (cols : List Str)
    (types : List colType) :
    ((∃ e, buildCreateTableSQL table cols types = Except.error e)
      ↔ cols.length ≠ types.length) ∧
    (cols.length = types.length → ∃ sql, buildCreateTableSQL table cols types = Except.ok sql) := by
  unfold buildCreateTableSQL
  by_cases h : cols.length = types.length
  · simp [h]
  · simp [h]

/-- Witness of C16: one column with one type gives text, one column with no type
gives the error. -/
theorem buildCreateTableSQL_error_iff_witness :
    (∃ sql, buildCreateTableSQL "t".toList ["a".toList] [colType.colText] = Except.ok sql) ∧
    (∃ e, buildCreateTableSQL "t".toList ["a".toList] [] = Except.error e) :=
  ⟨(buildCreateTableSQL_error_iff "t".toList ["a".toList] [colType.colText]).2 rfl,
   (buildCreateTableSQL_error_iff "t".toList ["a".toList] []).1.2 (by decide)⟩

/-! ## Agreement of the inference pass and the insert pass -/

theorem fieldValue_mem_columnValues (U : Unicode) (i : Nat) :
    ∀ (rows : List (List Str)) (rec : List Str), rec ∈ rows → fieldValue U rec i ≠ [] →
      fieldValue U rec i ∈ columnValues U rows i := by
  intro rows
  induction rows with
  | nil => intro rec h; simp at h
  | cons r rows ih =>
    intro rec hmem hne
    rw [columnValues_cons]
    rw [List.mem_cons] at hmem
    rcases hmem with h | h
    · subst h
      rw [if_neg hne]
      exact List.mem_cons_self _ _
    · have := ih rec h hne
      split
      · exact this
      · exact List.mem_cons_of_mem _ this

theorem typeOfValues_integer (P : Strconv) (V : List Str)
    (h : typeOfValues P V = colType.colInteger) : V.all P.parsesInt = true := by
  unfold typeOfValues at h
  split_ifs at h with h₁ h₂ h₃
  exact h₂

theorem typeOfValues_real (P : Strconv) (V : List Str)
    (h : typeOfValues P V = colType.colReal) : V.all P.parsesFloat = true := by
  unfold typeOfValues at h
  split_ifs at h with h₁ h₂ h₃
  exact h₃

/-- C19: for a column `i` inferred as Integer, every argument that the insert pass
passes at position `i` is the empty string or parses as a base-10 signed 64-bit
integer; for a column inferred as Real, every such argument is the empty string or
parses as a 64-bit float. -/
theorem infer_insert_agree (U : Unicode) (P : Strconv) (rows : List (List Str))
    (n i : Nat) (hi : i < n) :
    ((inferColumnTypes U P rows n)[i]? = some colType.colInteger →
      ∀ rec ∈ rows, ∀ args, insertRow U n rec = some args →
        ∃ v, args[i]? = some (some v) ∧ (v = [] ∨ P.parsesInt v = true)) ∧
    ((inferColumnTypes U P rows n)[i]? = some colType.colReal →
      ∀ rec ∈ rows, ∀ args, insertRow U n rec = some args →
        ∃ v, args[i]? = some (some v) ∧ (v = [] ∨ P.parsesFloat v = true)) := by
  have hget := (inferColumnTypes_get U P rows n).2 i hi
  have hargs : ∀ rec args, insertRow U n rec = some args →
      args[i]? = some (some (fieldValue U rec i)) := by
    intro rec args h
    unfold insertRow at h
    split at h
    · exact absurd h (by simp)
    · rw [← Option.some.inj h]
      exact buildArgs_get U rec n i hi
  constructor
  · intro ht rec hrec args ha
    rw [hget] at ht
    have hall := typeOfValues_integer P _ (Option.some.inj ht)
    refine ⟨fieldValue U rec i, hargs rec args ha, ?_⟩
    by_cases hv : fieldValue U rec i = []
    · exact Or.inl hv
    · exact Or.inr (List.all_eq_true.1 hall _ (fieldValue_mem_columnValues U i rows rec hrec hv))
  · intro ht rec hrec args ha
    rw [hget] at ht
    have hall := typeOfValues_real P _ (Option.some.inj ht)
    refine ⟨fieldValue U rec i, hargs rec args ha, ?_⟩
    by_cases hv : fieldValue U rec i = []
    · exact Or.inl hv
    · exact Or.inr (List.all_eq_true.1 hall _ (fieldValue_mem_columnValues U i rows rec hrec hv))

/-- Witness of C19: the column `1`, blank, `2` is inferred as Integer and the
arguments of its rows are `1` and `2`. -/
theorem infer_insert_agree_witness :
    (inferColumnTypes latin1Unicode decimalStrconv
        [["1".toList, "x".toList], [" ".toList, "y".toList], ["2".toList]] 2)[0]?
      = some colType.colInteger ∧
    ∀ rec ∈ [["1".toList, "x".toList], [" ".toList, "y".toList], ["2".toList]],
      ∀ args, insertRow latin1Unicode 2 rec = some args →
        ∃ v, args[0]? = some (some v) ∧ (v = [] ∨ decimalStrconv.parsesInt v = true) :=
  ⟨by decide,
   (infer_insert_agree latin1Unicode decimalStrconv
      [["1".toList, "x".toList], [" ".toList, "y".toList], ["2".toList]] 2 0
      (by decide)).1 (by decide)⟩

/-! ## Further claims on `SanitizeIdent` -/

theorem trim_id (p : Char → Bool) (w : Str)
    (hh : ∀ c, w.head? = some c → p c = false)
    (hl : ∀ c, w.getLast? = some c → p c = false) :
    (w.dropWhile p).rdropWhile p = w := by
  have hd : w.dropWhile p = w := by
    cases w with
    | nil => rfl
    | cons c r =>
      have := hh c rfl
      simp [List.dropWhile_cons, this]
  rw [hd, List.rdropWhile_eq_self_iff]
  intro hne
  have := hl _ (List.getLast?_eq_getLast _ hne)
  simp [this]

/-- A non-empty string of underscores, letters and digits that neither starts nor
ends with an underscore and does not start with an ASCII digit is left unchanged. -/
theorem SanitizeIdent_fixed (U : Unicode)
    (hsp : ∀ c, U.isSpace c = true → U.isLetter c = false ∧ U.isDigit c = false)
    (w : Str) (hne : w ≠ [])
    (hall : ∀ c ∈ w, c = '_' ∨ U.isLetter c = true ∨ U.isDigit c = true)
    (hhead : w.head? ≠ some '_') (hlast : w.getLast? ≠ some '_')
    (hdig : startsWithAsciiDigit w = false) :
    SanitizeIdent U w = w := by
  have hnsp : ∀ c ∈ w, c ≠ '_' → U.isSpace c = false := by
    intro c hc hcu
    cases hs : U.isSpace c with
    | false => rfl
    | true =>
      have := hsp c hs
      rcases hall c hc with h | h | h
      · exact absurd h hcu
      · rw [this.1] at h; exact Bool.noConfusion h
      · rw [this.2] at h; exact Bool.noConfusion h
  have ht : TrimSpace U w = w := by
    unfold TrimSpace
    apply trim_id
    · intro c hc
      exact hnsp c (List.mem_of_mem_head? hc) (fun h => hhead (h ▸ hc))
    · intro c hc
      exact hnsp c (List.mem_of_mem_getLast? hc) (fun h => hlast (h ▸ hc))
  have hm : w.map (sanitizeRune U) = w := by
    conv_rhs => rw [← List.map_id w]
    apply List.map_congr_left
    intro c hc
    unfold sanitizeRune
    rw [if_pos (hall c hc)]
    rfl
  have hu : trimUnderscores w = w := by
    unfold trimUnderscores
    apply trim_id
    · intro c hc
      have : c ≠ '_' := fun h => hhead (h ▸ hc)
      simpa using this
    · intro c hc
      have : c ≠ '_' := fun h => hlast (h ▸ hc)
      simpa using this
  unfold SanitizeIdent
  simp only [ht, hm, hu, hne, if_false, hdig, Bool.false_eq_true]

theorem sanitized_chars (U : Unicode) (s : Str) :
    ∀ c ∈ trimUnderscores ((TrimSpace U s).map (sanitizeRune U)),
      c = '_' ∨ U.isLetter c = true ∨ U.isDigit c = true := by
  intro c hc
  have hsub : trimUnderscores ((TrimSpace U s).map (sanitizeRune U))
      ⊆ (TrimSpace U s).map (sanitizeRune U) := by
    unfold trimUnderscores
    exact fun c hc => (List.dropWhile_suffix _).subset
      (( List.rdropWhile_prefix _ _).subset hc)
  have := hsub hc
  rw [List.mem_map] at this
  obtain ⟨r, _, rfl⟩ := this
  unfold sanitizeRune
  split
  · assumption
  · exact Or.inl rfl

/-- C20: `SanitizeIdent` is idempotent, for character classes in which no white
space is a letter or a digit and `c`, `o`, `l` are letters, as in Go's `unicode`. -/
theorem SanitizeIdent_idempotent (U : Unicode)
    (hsp : ∀ c, U.isSpace c = true → U.isLetter c = false ∧ U.isDigit c = false)
    (hc : U.isLetter 'c' = true) (ho : U.isLetter 'o' = true) (hl : U.isLetter 'l' = true)
    (s : Str) :
    SanitizeIdent U (SanitizeIdent U s) = SanitizeIdent U s := by
  rcases SanitizeIdent_cases U s with h | ⟨hne, ⟨hd, h⟩ | ⟨hd, h⟩⟩
  · rw [h]
    apply SanitizeIdent_fixed U hsp
    · decide
    · intro c hmem
      have : c = 'c' ∨ c = 'o' ∨ c = 'l' := by simpa using hmem
      rcases this with h | h | h <;> subst h
      · exact Or.inr (Or.inl hc)
      · exact Or.inr (Or.inl ho)
      · exact Or.inr (Or.inl hl)
    · decide
    · decide
    · decide
  · rw [h]
    apply SanitizeIdent_fixed U hsp
    · simp
    · intro c hmem
      rw [List.mem_append] at hmem
      rcases hmem with hmem | hmem
      · have : c = 'c' ∨ c = '_' := by simpa using hmem
        rcases this with h | h <;> subst h
        · exact Or.inr (Or.inl hc)
        · exact Or.inl rfl
      · exact sanitized_chars U s c hmem
    · show some 'c' ≠ some '_'
      decide
    · rw [List.getLast?_append_of_ne_nil _ hne]
      exact trimUnderscores_getLast _
    · rfl
  · rw [h]
    exact SanitizeIdent_fixed U hsp _ hne (sanitized_chars U s)
      (trimUnderscores_head _) (trimUnderscores_getLast _) hd

theorem latin1_space_not_letter :
    ∀ c, latin1Unicode.isSpace c = true →
      latin1Unicode.isLetter c = false ∧ latin1Unicode.isDigit c = false := by
  intro c h
  simp only [latin1Unicode, decide_eq_true_eq, List.mem_cons, List.mem_singleton,
    List.not_mem_nil, or_false] at h
  simp only [latin1Unicode, decide_eq_false_iff_not]
  constructor <;> omega

/-- Witness of C20 with the Latin-1 classes on the raw string `" 9 lives! "`. -/
theorem SanitizeIdent_idempotent_witness :
    SanitizeIdent latin1Unicode (SanitizeIdent latin1Unicode " 9 lives! ".toList)
      = SanitizeIdent latin1Unicode " 9 lives! ".toList :=
  SanitizeIdent_idempotent latin1Unicode latin1_space_not_letter (by decide) (by decide)
    (by decide) " 9 lives! ".toList

/-- C17, the code at the stems `a-b` and `a_b`: the two distinct stems are
sanitized to the same table name `a_b`. -/
theorem SanitizeIdent_stems_collide (U : Unicode)
    (hsp : ∀ c ∈ "a-b_".toList, U.isSpace c = false)
    (ha : U.isLetter 'a' = true) (hb : U.isLetter 'b' = true)
    (hd : U.isLetter '-' = false ∧ U.isDigit '-' = false) :
    "a-b".toList ≠ "a_b".toList ∧
    SanitizeIdent U "a-b".toList = "a_b".toList ∧
    SanitizeIdent U "a_b".toList = "a_b".toList := by
  have t₁ : TrimSpace U ['a', '-', 'b'] = ['a', '-', 'b'] :=
    TrimSpace_id U _ (fun c hc => hsp c ((by decide : ∀ c ∈ ['a', '-', 'b'],
      c ∈ "a-b_".toList) c hc))
  have t₂ : TrimSpace U ['a', '_', 'b'] = ['a', '_', 'b'] :=
    TrimSpace_id U _ (fun c hc => hsp c ((by decide : ∀ c ∈ ['a', '_', 'b'],
      c ∈ "a-b_".toList) c hc))
  have ra : sanitizeRune U 'a' = 'a' := by simp [sanitizeRune, ha]
  have rb : sanitizeRune U 'b' = 'b' := by simp [sanitizeRune, hb]
  have rd : sanitizeRune U '-' = '_' := by simp [sanitizeRune, hd.1, hd.2]
  have ru : sanitizeRune U '_' = '_' := by simp [sanitizeRune]
  have hu : trimUnderscores ['a', '_', 'b'] = ['a', '_', 'b'] := by decide
  have hdg : startsWithAsciiDigit ['a', '_', 'b'] = false := by decide
  refine ⟨by decide, ?_, ?_⟩
  · show SanitizeIdent U ['a', '-', 'b'] = ['a', '_', 'b']
    simp [SanitizeIdent, t₁, ra, rb, rd, hu, hdg]
  · show SanitizeIdent U ['a', '_', 'b'] = ['a', '_', 'b']
    simp [SanitizeIdent, t₂, ra, rb, ru, hu, hdg]

/-- Witness of `SanitizeIdent_stems_collide` with the Latin-1 classes. -/
theorem SanitizeIdent_stems_collide_witness :
    "a-b".toList ≠ "a_b".toList ∧
    SanitizeIdent latin1Unicode "a-b".toList = "a_b".toList ∧
    SanitizeIdent latin1Unicode "a_b".toList = "a_b".toList :=
  SanitizeIdent_stems_collide latin1Unicode (by decide) (by decide) (by decide) (by decide)

/-! ## Claims on the insert pass and on `importTSV` -/

theorem stmtExec_step {σ : Type} (E : Engine σ) (db : Db σ) (sql : Str) (args : List SqlArg) :
    (db.stmtExec E sql args).2.committed = db.committed ∧
    (db.stmtExec E sql args).2.tx.isSome = db.tx.isSome ∧
    (db.stmtExec E sql args).2.events
      = db.events ++ [{ call := DbCall.stmtExec args,
                        ok := (db.stmtExec E sql args).1.isNone }] := by
  unfold Db.stmtExec
  cases htx : db.tx with
  | none => simp [Db.record, htx]
  | some w =>
    cases hE : E.stmtExec w sql args with
    | error e => simp [Db.record, htx, hE]
    | ok w' => simp [Db.record, htx, hE]

theorem quiet_nil : Quiet [] := by
  intro ev h; simp at h

theorem quiet_cons_insert_ok (args : List SqlArg) (evs : List DbEvent) (h : Quiet evs) :
    Quiet ({ call := DbCall.stmtExec args, ok := true } :: evs) := by
  intro ev hev
  rw [List.mem_cons] at hev
  rcases hev with rfl | hev
  · refine ⟨?_, by simp⟩
    rintro ⟨a, ha⟩
    simp at ha
  · exact h ev hev

theorem insertLoop_outcome {σ : Type} (U : Unicode) (E : Engine σ) (sql : Str) (n : Nat) :
    ∀ (reads : List (Except Str (List Str))) (inserted : Nat) (db : Db σ),
      InsertOutcome db (insertLoop U E sql n reads inserted db) := by
  intro reads
  induction reads with
  | nil =>
    intro inserted db
    exact ⟨rfl, rfl, Or.inl ⟨[], by simp [insertLoop], quiet_nil⟩⟩
  | cons r rest ih =>
    intro inserted db
    cases r with
    | error e =>
      exact ⟨rfl, rfl, Or.inl ⟨[], by simp [insertLoop], quiet_nil⟩⟩
    | ok rec =>
      rw [insertLoop]
      cases hrow : insertRow U n rec with
      | none => exact ih inserted db
      | some args =>
        simp only []
        obtain ⟨hc, ht, hev⟩ := stmtExec_step E db sql args
        cases hres : db.stmtExec E sql args with
        | mk err db₁ =>
          rw [hres] at hc ht hev
          simp only at hc ht hev
          cases err with
          | some e =>
            simp only [Option.isNone_some] at hev
            exact ⟨hc, ht, Or.inr ⟨[], args, e, by simpa using hev, quiet_nil, rfl⟩⟩
          | none =>
            simp only [Option.isNone_none] at hev
            obtain ⟨hc', ht', hcase⟩ := ih (inserted + 1) db₁
            refine ⟨hc'.trans hc, ht'.trans ht, ?_⟩
            rcases hcase with ⟨evs, hevs, hq⟩ | ⟨pre, a, e, hevs, hq, he⟩
            · left
              exact ⟨_ :: evs, by rw [hevs, hev]; simp, quiet_cons_insert_ok args evs hq⟩
            · right
              exact ⟨_ :: pre, a, e, by rw [hevs, hev]; simp,
                quiet_cons_insert_ok args pre hq, he⟩

theorem streamInsertTSV_outcome {σ : Type} (U : Unicode) (E : Engine σ) (sql : Str)
    (f : TsvFile) (n : Nat) (db : Db σ) :
    InsertOutcome db (streamInsertTSV U E sql f n db) := by
  have triv : ∀ r : Nat × Option Str, InsertOutcome db (r, db) :=
    fun r => ⟨rfl, rfl, Or.inl ⟨[], by simp, quiet_nil⟩⟩
  unfold streamInsertTSV
  cases f.openErr with
  | some e => exact triv _
  | none =>
    cases hr : f.reads with
    | nil => exact triv _
    | cons r data =>
      cases r with
      | error e => exact triv _
      | ok h => exact insertLoop_outcome U E sql n data 0 db

/-- `isAllEmpty rec` holds exactly when every field of `rec` is empty after
trimming white space. -/
theorem isAllEmpty_iff (U : Unicode) : ∀ rec : List Str,
    isAllEmpty U rec = true ↔ ∀ s ∈ rec, TrimSpace U s = [] := by
  intro rec
  induction rec with
  | nil => simp [isAllEmpty]
  | cons s rest ih =>
    rw [isAllEmpty]
    by_cases hs : TrimSpace U s = []
    · simp [hs, ih]
    · simp [hs]

theorem any_nonblank_eq (U : Unicode) : ∀ r : List Str,
    r.any (fun s => decide (TrimSpace U s ≠ [])) = !isAllEmpty U r := by
  intro r
  induction r with
  | nil => rfl
  | cons s rest ih =>
    rw [List.any_cons, isAllEmpty, ih]
    by_cases hs : TrimSpace U s = []
    · simp [hs]
    · simp [hs]

theorem insertRow_filter_length (U : Unicode) (n : Nat) : ∀ rows : List (List Str),
    (rows.filterMap (insertRow U n)).length
      = (rows.filter (fun r => r.any (fun s => decide (TrimSpace U s ≠ [])))).length := by
  intro rows
  have hfun : (fun r : List Str => r.any (fun s => decide (TrimSpace U s ≠ [])))
      = (fun r => !isAllEmpty U r) := funext (any_nonblank_eq U)
  rw [hfun]
  induction rows with
  | nil => rfl
  | cons r rows ih =>
    cases hr : isAllEmpty U r with
    | true => simp [List.filterMap_cons, List.filter_cons, insertRow, hr, ih]
    | false => simp [List.filterMap_cons, List.filter_cons, insertRow, hr, ih]

/-- A run of the record loop on reads that all succeed: the events it adds are
statement executions, and when all of them succeeded the loop returns no error and
has counted one execution per row that `insertRow` does not skip. -/
theorem insertLoop_run {σ : Type} (U : Unicode) (E : Engine σ) (sql : Str) (n : Nat) :
    ∀ (rows : List (List Str)) (inserted : Nat) (db : Db σ),
      ∃ evs, (insertLoop U E sql n (rows.map Except.ok) inserted db).2.events
          = db.events ++ evs ∧
        (∀ ev ∈ evs, ∃ args, ev.call = DbCall.stmtExec args) ∧
        ((∀ ev ∈ evs, ev.ok = true) →
          (insertLoop U E sql n (rows.map Except.ok) inserted db).1
            = (inserted + (rows.filterMap (insertRow U n)).length, none) ∧
          evs = (rows.filterMap (insertRow U n)).map
            (fun args => { call := DbCall.stmtExec args, ok := true })) := by
  intro rows
  induction rows with
  | nil =>
    intro inserted db
    exact ⟨[], by simp [insertLoop], by simp, fun _ => by simp [insertLoop]⟩
  | cons r rows ih =>
    intro inserted db
    rw [List.map_cons, insertLoop]
    cases hrow : insertRow U n r with
    | none =>
      obtain ⟨evs, h₁, h₂, h₃⟩ := ih inserted db
      exact ⟨evs, h₁, h₂, fun hok => by simpa [List.filterMap_cons, hrow] using h₃ hok⟩
    | some args =>
      simp only []
      obtain ⟨_, _, hev⟩ := stmtExec_step E db sql args
      cases hres : db.stmtExec E sql args with
      | mk err db₁ =>
        rw [hres] at hev
        simp only at hev
        cases err with
        | some e =>
          simp only [Option.isNone_some] at hev
          refine ⟨[{ call := DbCall.stmtExec args, ok := false }], hev, ?_, ?_⟩
          · intro ev hmem
            rw [List.mem_singleton] at hmem
            exact ⟨args, by rw [hmem]⟩
          · intro hok
            have := hok _ (List.mem_singleton_self _)
            simp at this
        | none =>
          simp only [Option.isNone_none] at hev
          obtain ⟨evs, h₁, h₂, h₃⟩ := ih (inserted + 1) db₁
          refine ⟨{ call := DbCall.stmtExec args, ok := true } :: evs, ?_, ?_, ?_⟩
          · rw [h₁, hev]; simp
          · intro ev hmem
            rw [List.mem_cons] at hmem
            rcases hmem with h | h
            · exact ⟨args, by rw [h]⟩
            · exact h₂ ev h
          · intro hok
            obtain ⟨hres', hevs⟩ := h₃ (fun ev h => hok ev (List.mem_cons_of_mem _ h))
            refine ⟨?_, ?_⟩
            · rw [hres']
              simp [List.filterMap_cons, hrow]
              omega
            · rw [hevs]
              simp [List.filterMap_cons, hrow]

theorem insertLoop_blank {σ : Type} (U : Unicode) (E : Engine σ) (sql : Str) (n : Nat) :
    ∀ (rows : List (List Str)) (inserted : Nat) (db : Db σ),
      (∀ r ∈ rows, isAllEmpty U r = true) →
      insertLoop U E sql n (rows.map Except.ok) inserted db = ((inserted, none), db) := by
  intro rows
  induction rows with
  | nil => intro inserted db _; simp [insertLoop]
  | cons r rows ih =>
    intro inserted db h
    have hr : insertRow U n r = none := by
      simp [insertRow, h r (List.mem_cons_self _ _)]
    rw [List.map_cons, insertLoop, hr]
    exact ih inserted db (fun r' hr' => h r' (List.mem_cons_of_mem _ hr'))

/-- C14: on a file whose reads all succeed, the calls that the insert pass makes on
the database are executions of the insert statement, and when every one of them
succeeds the pass returns no error and an inserted count equal to the number of
data rows that are not entirely empty (rows with a field that is not empty after
trimming white space), having made exactly that many executions; and when every
field of every data row is empty after trimming, or there is no data row, it
returns 0 and no error and makes no call on the database. -/
theorem streamInsertTSV_count {σ : Type} (U : Unicode) (E : Engine σ) (sql : Str)
    (f : TsvFile) (colCount : Nat) (db : Db σ) (header : List Str)
    (rows : List (List Str))
    (hopen : f.openErr = none) (hreads : f.reads = Except.ok header :: rows.map Except.ok) :
    (∃ evs, (streamInsertTSV U E sql f colCount db).2.events = db.events ++ evs ∧
      (∀ ev ∈ evs, ∃ args, ev.call = DbCall.stmtExec args) ∧
      ((∀ ev ∈ evs, ev.ok = true) →
        (streamInsertTSV U E sql f colCount db).1
          = ((rows.filter (fun r => r.any (fun s => decide (TrimSpace U s ≠ [])))).length,
              none) ∧
        evs.length
          = (rows.filter (fun r => r.any (fun s => decide (TrimSpace U s ≠ [])))).length)) ∧
    ((∀ r ∈ rows, ∀ s ∈ r, TrimSpace U s = []) →
      streamInsertTSV U E sql f colCount db = ((0, none), db)) := by
  have hstream : streamInsertTSV U E sql f colCount db
      = insertLoop U E sql colCount (rows.map Except.ok) 0 db := by
    simp [streamInsertTSV, hopen, hreads]
  rw [hstream]
  constructor
  · obtain ⟨evs, h₁, h₂, h₃⟩ := insertLoop_run U E sql colCount rows 0 db
    refine ⟨evs, h₁, h₂, fun hok => ?_⟩
    obtain ⟨hres, hevs⟩ := h₃ hok
    rw [← insertRow_filter_length U colCount rows]
    refine ⟨by simpa using hres, ?_⟩
    rw [hevs, List.length_map]
  · intro hblank
    exact insertLoop_blank U E sql colCount rows 0 db
      (fun r hr => (isAllEmpty_iff U r).2 (hblank r hr))

/-- Witness of C14: of the rows `a`, blank, `b`, on an engine whose executions all
succeed, two are inserted and the count returned is 2. -/
theorem streamInsertTSV_count_witness :
    (streamInsertTSV latin1Unicode (listEngine (fun _ => false)) "INSERT".toList
        ((oneFileEnv [["a".toList], [" ".toList], ["b".toList]]).file [])
        1 { committed := [], tx := some [], events := [] }).1 = (2, none) ∧
    (streamInsertTSV latin1Unicode (listEngine (fun _ => false)) "INSERT".toList
        ((oneFileEnv [["a".toList], [" ".toList], ["b".toList]]).file [])
        1 { committed := [], tx := some [], events := [] }).2.events
      = [{ call := DbCall.stmtExec [some "a".toList], ok := true },
         { call := DbCall.stmtExec [some "b".toList], ok := true }] := by
  have hev : (streamInsertTSV latin1Unicode (listEngine (fun _ => false)) "INSERT".toList
        ((oneFileEnv [["a".toList], [" ".toList], ["b".toList]]).file [])
        1 { committed := [], tx := some [], events := [] }).2.events
      = [{ call := DbCall.stmtExec [some "a".toList], ok := true },
         { call := DbCall.stmtExec [some "b".toList], ok := true }] := by decide
  obtain ⟨evs, h₁, _, h₃⟩ :=
    (streamInsertTSV_count latin1Unicode (listEngine (fun _ => false)) "INSERT".toList
      ((oneFileEnv [["a".toList], [" ".toList], ["b".toList]]).file [])
      1 { committed := [], tx := some [], events := [] } ["v".toList]
      [["a".toList], [" ".toList], ["b".toList]] rfl rfl).1
  have hevs : evs = [{ call := DbCall.stmtExec [some "a".toList], ok := true },
      { call := DbCall.stmtExec [some "b".toList], ok := true }] := by
    rw [hev] at h₁
    simpa using h₁.symm
  have hok : ∀ ev ∈ evs, ev.ok = true := by
    rw [hevs]; decide
  refine ⟨?_, hev⟩
  rw [(h₃ hok).1]
  decide

theorem exec_step {σ : Type} (E : Engine σ) (db : Db σ) (sql : Str) :
    (db.exec E sql).2.committed = db.committed ∧
    (db.exec E sql).2.tx.isSome = db.tx.isSome ∧
    ∃ b, (db.exec E sql).2.events = db.events ++ [{ call := DbCall.exec sql, ok := b }] := by
  unfold Db.exec
  cases htx : db.tx with
  | none => simp [Db.record, htx]
  | some w =>
    cases hE : E.exec w sql with
    | error e => simp [Db.record, htx, hE]
    | ok w' => simp [Db.record, htx, hE]

theorem prepare_step {σ : Type} (E : Engine σ) (db : Db σ) (sql : Str) :
    (db.prepare E sql).2.committed = db.committed ∧
    (db.prepare E sql).2.tx.isSome = db.tx.isSome ∧
    ∃ b, (db.prepare E sql).2.events
      = db.events ++ [{ call := DbCall.prepare sql, ok := b }] := by
  unfold Db.prepare
  cases htx : db.tx with
  | none => simp [Db.record, htx]
  | some w =>
    cases hE : E.prepare w sql with
    | some e => simp [Db.record, htx, hE]
    | none => simp [Db.record, htx, hE]

theorem commit_step {σ : Type} (E : Engine σ) (db : Db σ) :
    ∃ b, (db.commit E).2.events = db.events ++ [{ call := DbCall.commit, ok := b }] := by
  unfold Db.commit
  cases htx : db.tx with
  | none => simp [Db.record, htx]
  | some w =>
    cases hE : E.commit w with
    | some e => simp [Db.record, htx, hE]
    | none => simp [Db.record, htx, hE]

theorem rollback_step {σ : Type} (db : Db σ) :
    db.rollback.committed = db.committed ∧ db.rollback.tx = none ∧
    db.rollback.events = db.events ++ [{ call := DbCall.rollback, ok := db.tx.isSome }] := by
  unfold Db.rollback
  cases htx : db.tx with
  | none => simp [Db.record, htx]
  | some w => simp [Db.record, htx]

theorem not_failedInsert_of_call (ev : DbEvent)
    (h : ∀ args, ev.call ≠ DbCall.stmtExec args) : ¬ FailedInsert ev := by
  rintro ⟨args, rfl⟩
  exact h args rfl

theorem quiet_single (ev : DbEvent) (h : ∀ args, ev.call ≠ DbCall.stmtExec args)
    (hc : ev.call ≠ DbCall.commit) : Quiet [ev] := by
  intro ev' hev
  rw [List.mem_singleton] at hev
  subst hev
  exact ⟨not_failedInsert_of_call _ h, hc⟩

theorem quiet_append (a b : List DbEvent) (ha : Quiet a) (hb : Quiet b) : Quiet (a ++ b) := by
  intro ev hev
  rw [List.mem_append] at hev
  rcases hev with h | h
  · exact ha ev h
  · exact hb ev h

/-- A stage that only adds events none of which is a failed statement execution. -/
theorem txOutcome_of_events {σ : Type} (tsvPath : Str) (tail : List DbEvent) (db : Db σ)
    (r : Option Str × Db σ) (evs : List DbEvent) (h : r.2.events = db.events ++ evs)
    (hq : ∀ ev ∈ evs, ¬ FailedInsert ev) : TxOutcome tsvPath tail db r :=
  Or.inl ⟨evs, h, hq⟩

/-- The outcome of a stage seen from an earlier database that reached the start of
the stage through quiet events. -/
theorem txOutcome_prepend {σ : Type} (tsvPath : Str) (tail : List DbEvent) (db db₁ : Db σ)
    (r : Option Str × Db σ) (pre₀ : List DbEvent) (hev : db₁.events = db.events ++ pre₀)
    (hq : Quiet pre₀) (hc : db₁.committed = db.committed)
    (ht : db₁.tx.isSome = db.tx.isSome) (h : TxOutcome tsvPath tail db₁ r) :
    TxOutcome tsvPath tail db r := by
  rcases h with ⟨evs, hevs, hno⟩ | ⟨pre, args, e, hevs, hpre, herr, hcom, htx⟩
  · left
    refine ⟨pre₀ ++ evs, by rw [hevs, hev, List.append_assoc], ?_⟩
    intro ev hmem
    rw [List.mem_append] at hmem
    rcases hmem with h | h
    · exact (hq ev h).1
    · exact hno ev h
  · right
    refine ⟨pre₀ ++ pre, args, e, ?_, quiet_append _ _ hq hpre, herr, hcom.trans hc,
      htx.trans ht⟩
    rw [hevs, hev]
    simp [List.append_assoc]

theorem importWithStmt_outcome {σ : Type} (U : Unicode) (env : Env) (E : Engine σ)
    (tsvPath insertSQL : Str) (n : Nat) (db : Db σ) :
    TxOutcome tsvPath [] db (importWithStmt U env E tsvPath insertSQL n db) := by
  obtain ⟨hc, ht, hcase⟩ := streamInsertTSV_outcome U E insertSQL (env.file tsvPath) n db
  unfold importWithStmt
  cases hres : streamInsertTSV U E insertSQL (env.file tsvPath) n db with
  | mk cnt db₁ =>
    obtain ⟨k, err⟩ := cnt
    rw [hres] at hc ht hcase
    simp only at hc ht hcase
    rcases hcase with ⟨evs, hevs, hq⟩ | ⟨pre, args, e, hevs, hq, he⟩
    · cases err with
      | some e =>
        exact txOutcome_of_events tsvPath [] db _ evs hevs (fun ev h => (hq ev h).1)
      | none =>
        simp only []
        obtain ⟨b, hb⟩ := commit_step E db₁
        have hno : ∀ ev ∈ evs ++ [{ call := DbCall.commit, ok := b }], ¬ FailedInsert ev := by
          intro ev hmem
          rw [List.mem_append, List.mem_singleton] at hmem
          rcases hmem with h | h
          · exact (hq ev h).1
          · subst h
            exact not_failedInsert_of_call _ (by simp)
        cases hcm : db₁.commit E with
        | mk cerr db₂ =>
          rw [hcm] at hb
          simp only at hb
          have hev₂ : db₂.events = db.events ++ (evs ++ [{ call := DbCall.commit, ok := b }]) := by
            rw [hb, hevs, List.append_assoc]
          cases cerr with
          | some ce => exact txOutcome_of_events tsvPath [] db _ _ hev₂ hno
          | none => exact txOutcome_of_events tsvPath [] db _ _ hev₂ hno
    · subst he
      right
      exact ⟨pre, args, e, by simpa using hevs, hq, rfl, hc, ht⟩

theorem quiet_exec (sql : Str) (b : Bool) : Quiet [{ call := DbCall.exec sql, ok := b }] :=
  quiet_single _ (by simp) (by simp)

theorem quiet_prepare (sql : Str) (b : Bool) :
    Quiet [{ call := DbCall.prepare sql, ok := b }] :=
  quiet_single _ (by simp) (by simp)

theorem importCreateAndLoad_outcome {σ : Type} (U : Unicode) (env : Env) (E : Engine σ)
    (tsvPath tableName : Str) (cols : List Str) (types : List colType) (db : Db σ) :
    TxOutcome tsvPath [{ call := DbCall.stmtClose, ok := true }] db
      (importCreateAndLoad U env E tsvPath tableName cols types db) := by
  unfold importCreateAndLoad
  cases hb : buildCreateTableSQL tableName cols types with
  | error e => exact txOutcome_of_events tsvPath _ db _ [] (by simp) (by simp)
  | ok createSQL =>
    simp only []
    obtain ⟨hc₁, ht₁, b₁, he₁⟩ := exec_step E db createSQL
    cases hx : db.exec E createSQL with
    | mk err₁ db₁ =>
      rw [hx] at hc₁ ht₁ he₁
      simp only at hc₁ ht₁ he₁
      cases err₁ with
      | some e =>
        exact txOutcome_of_events tsvPath _ db _ _ he₁ (fun ev h => (quiet_exec _ _ ev h).1)
      | none =>
        simp only []
        obtain ⟨hc₂, ht₂, b₂, he₂⟩ := prepare_step E db₁ (buildInsertSQL tableName cols)
        cases hp : db₁.prepare E (buildInsertSQL tableName cols) with
        | mk err₂ db₂ =>
          rw [hp] at hc₂ ht₂ he₂
          simp only at hc₂ ht₂ he₂
          refine txOutcome_prepend tsvPath _ db db₁ _ _ he₁ (quiet_exec _ _) hc₁ ht₁ ?_
          cases err₂ with
          | some e =>
            exact txOutcome_of_events tsvPath _ db₁ _ _ he₂
              (fun ev h => (quiet_prepare _ _ ev h).1)
          | none =>
            simp only []
            refine txOutcome_prepend tsvPath _ db₁ db₂ _ _ he₂ (quiet_prepare _ _) hc₂ ht₂ ?_
            have hw := importWithStmt_outcome U env E tsvPath
              (buildInsertSQL tableName cols) cols.length db₂
            cases hres : importWithStmt U env E tsvPath (buildInsertSQL tableName cols)
                cols.length db₂ with
            | mk err db₃ =>
              rw [hres] at hw
              rcases hw with ⟨evs, hevs, hno⟩ | ⟨pre, args, e, hevs, hpre, herr, hcom, htx⟩
              · left
                refine ⟨evs ++ [{ call := DbCall.stmtClose, ok := true }], ?_, ?_⟩
                · simp only at hevs
                  simp [Db.stmtClose, Db.record, hevs]
                · intro ev hmem
                  rw [List.mem_append, List.mem_singleton] at hmem
                  rcases hmem with h | h
                  · exact hno ev h
                  · subst h
                    exact not_failedInsert_of_call _ (by simp)
              · right
                simp only at hevs herr hcom htx
                exact ⟨pre, args, e, by simp [Db.stmtClose, Db.record, hevs], hpre, herr,
                  by simpa [Db.stmtClose, Db.record] using hcom,
                  by simpa [Db.stmtClose, Db.record] using htx⟩

theorem importInTx_outcome {σ : Type} (U : Unicode) (env : Env) (E : Engine σ)
    (tsvPath : Str) (dropTable : Bool) (tableName : Str) (cols : List Str)
    (types : List colType) (db : Db σ) :
    TxOutcome tsvPath [{ call := DbCall.stmtClose, ok := true }] db
      (importInTx U env E tsvPath dropTable tableName cols types db) := by
  unfold importInTx
  cases dropTable with
  | false =>
    simp only [Bool.false_eq_true, if_false]
    exact importCreateAndLoad_outcome U env E tsvPath tableName cols types db
  | true =>
    simp only [if_true]
    obtain ⟨hc₁, ht₁, b₁, he₁⟩ :=
      exec_step E db ("DROP TABLE IF EXISTS ".toList ++ QuoteIdent tableName)
    cases hx : db.exec E ("DROP TABLE IF EXISTS ".toList ++ QuoteIdent tableName) with
    | mk err₁ db₁ =>
      rw [hx] at hc₁ ht₁ he₁
      simp only at hc₁ ht₁ he₁
      cases err₁ with
      | some e =>
        exact txOutcome_of_events tsvPath _ db _ _ he₁ (fun ev h => (quiet_exec _ _ ev h).1)
      | none =>
        exact txOutcome_prepend tsvPath _ db db₁ _ _ he₁ (quiet_exec _ _) hc₁ ht₁
          (importCreateAndLoad_outcome U env E tsvPath tableName cols types db₁)

theorem beginTx_step {σ : Type} (E : Engine σ) (db : Db σ) :
    (db.beginTx E).2.committed = db.committed ∧
    (db.beginTx E).2.events
      = db.events ++ [{ call := DbCall.beginTx, ok := (db.beginTx E).1.isNone }] ∧
    ((db.beginTx E).1 = none → (db.beginTx E).2.tx.isSome = true) := by
  unfold Db.beginTx
  cases hE : E.beginTx db.committed with
  | some e => simp [Db.record]
  | none => simp [Db.record]

theorem headerLength_eq (f : TsvFile) (header : List Str)
    (h : readHeader f = Except.ok header) : headerLength f = header.length := by
  simp [headerLength, h]

theorem DedupIdents_isSome (fuel : Nat) (xs : List Str) (h : xs.length ≤ fuel) :
    ∃ cols, DedupIdents fuel xs = some cols := by
  obtain ⟨ys, hrun, _⟩ := dedupLoop_spec fuel xs [] [] dedupInv_nil (by simpa using h)
  exact ⟨ys, by simpa [DedupIdents] using hrun⟩

/-- C15: `importTSV` returns (with fuel for `DedupIdents` of at least the number of
header fields), and if the execution of the insert statement fails for a row, then
the calls it made end with that failed execution, `stmt.Close()` and a successful
`tx.Rollback()`, no call before it is a commit or another failed execution, the
error returned is `insert rows <path>: <cause>`, the committed contents are those
before the call, and no transaction is left open. -/
theorem importTSV_atomic {σ : Type} (U : Unicode) (P : Strconv) (env : Env) (E : Engine σ)
    (fuel : Nat) (db : Db σ) (tsvPath : Str) (dropTable : Bool)
    (hfuel : headerLength (env.file tsvPath) ≤ fuel) :
    ∃ res db', importTSV U P env E fuel db tsvPath dropTable = some (res, db') ∧
      ∃ evs, db'.events = db.events ++ evs ∧
        ∀ args, ({ call := DbCall.stmtExec args, ok := false } : DbEvent) ∈ evs →
          (∃ pre, evs = pre ++ [{ call := DbCall.stmtExec args, ok := false },
                                { call := DbCall.stmtClose, ok := true },
                                { call := DbCall.rollback, ok := true }] ∧
            ∀ ev ∈ pre, ev.call ≠ DbCall.commit ∧
              ∀ a, ev ≠ { call := DbCall.stmtExec a, ok := false }) ∧
          (∃ e, res = some ("insert rows ".toList ++ tsvPath ++ ": ".toList ++ e)) ∧
          db'.committed = db.committed ∧ db'.tx = none := by
  have early : ∀ msg : Str, ∃ res db', some (some msg, db) = some (res, db') ∧
      ∃ evs, db'.events = db.events ++ evs ∧
        ∀ args, ({ call := DbCall.stmtExec args, ok := false } : DbEvent) ∈ evs →
          (∃ pre, evs = pre ++ [{ call := DbCall.stmtExec args, ok := false },
                                { call := DbCall.stmtClose, ok := true },
                                { call := DbCall.rollback, ok := true }] ∧
            ∀ ev ∈ pre, ev.call ≠ DbCall.commit ∧
              ∀ a, ev ≠ { call := DbCall.stmtExec a, ok := false }) ∧
          (∃ e, res = some ("insert rows ".toList ++ tsvPath ++ ": ".toList ++ e)) ∧
          db'.committed = db.committed ∧ db'.tx = none :=
    fun msg => ⟨some msg, db, rfl, [], by simp, fun args h => by simp at h⟩
  unfold importTSV
  simp only []
  cases hh : readHeader (env.file tsvPath) with
  | error e => exact early _
  | ok header =>
    simp only []
    by_cases hz : header.length = 0
    · rw [if_pos hz]; exact early _
    · rw [if_neg hz]
      have hlen : (header.map (SanitizeIdent U)).length ≤ fuel := by
        rw [List.length_map, ← headerLength_eq _ _ hh]; exact hfuel
      obtain ⟨cols, hcols⟩ := DedupIdents_isSome fuel _ hlen
      rw [hcols]
      simp only []
      cases hi : inferColumnTypesFile U P (env.file tsvPath) cols.length with
      | error e => exact early _
      | ok types =>
        simp only []
        obtain ⟨hbc, hbe, hbt⟩ := beginTx_step E db
        cases hbg : db.beginTx E with
        | mk berr db₁ =>
          rw [hbg] at hbc hbe hbt
          simp only at hbc hbe hbt
          cases berr with
          | some e =>
            simp only [Option.isNone_some] at hbe
            refine ⟨_, db₁, rfl, _, hbe, fun args h => ?_⟩
            simp at h
          | none =>
            simp only [Option.isNone_none] at hbe
            have htx₁ := hbt rfl
            simp only []
            have ho := importInTx_outcome U env E tsvPath dropTable
              (SanitizeIdent U (env.stem tsvPath)) cols types db₁
            cases hres : importInTx U env E tsvPath dropTable
                (SanitizeIdent U (env.stem tsvPath)) cols types db₁ with
            | mk err db₂ =>
              rw [hres] at ho
              obtain ⟨hrc, hrt, hre⟩ := rollback_step db₂
              rcases ho with ⟨evs, hevs, hno⟩ | ⟨pre, args', e, hevs, hpre, herr, hcom, htx⟩
              · simp only at hevs
                refine ⟨err, db₂.rollback, rfl,
                  [{ call := DbCall.beginTx, ok := true }] ++ evs ++
                    [{ call := DbCall.rollback, ok := db₂.tx.isSome }], ?_, ?_⟩
                · rw [hre, hevs, hbe]; simp
                · intro args hmem
                  exfalso
                  simp only [List.mem_append, List.mem_singleton] at hmem
                  rcases hmem with (h | h) | h
                  · simp at h
                  · exact hno _ h ⟨args, rfl⟩
                  · simp at h
              · simp only at hevs herr hcom htx
                have hopen : db₂.tx.isSome = true := htx.trans htx₁
                refine ⟨err, db₂.rollback, rfl,
                  ([{ call := DbCall.beginTx, ok := true }] ++ pre) ++
                    [{ call := DbCall.stmtExec args', ok := false },
                     { call := DbCall.stmtClose, ok := true },
                     { call := DbCall.rollback, ok := true }], ?_, ?_⟩
                · rw [hre, hevs, hbe, hopen]; simp
                · have hq : Quiet ([{ call := DbCall.beginTx, ok := true }] ++ pre) :=
                    quiet_append _ _ (quiet_single _ (by simp) (by simp)) hpre
                  intro args hmem
                  have hargs : args = args' := by
                    simp only [List.mem_append, List.mem_cons, List.mem_singleton,
                      List.not_mem_nil, or_false] at hmem
                    rcases hmem with (h | h) | h | h | h
                    · simp at h
                    · exact absurd ⟨args, rfl⟩ (hpre _ h).1
                    · simpa using h
                    · simp at h
                    · simp at h
                  subst hargs
                  refine ⟨⟨_, rfl, fun ev hev => ⟨(hq ev hev).2, fun a ha => ?_⟩⟩,
                    ⟨e, herr⟩, by rw [hrc, hcom, hbc], hrt⟩
                  exact (hq ev hev).1 ⟨a, ha⟩

/-- Witness of C15: the file with the rows `1`, `bad`, `3`, on an engine that
rejects `bad`: the second execution fails, the third row is never executed, and the
call ends with `stmt.Close()` and the rollback. -/
theorem importTSV_atomic_witness :
    ((importTSV latin1Unicode decimalStrconv
        (oneFileEnv [["1".toList], ["bad".toList], ["3".toList]])
        (listEngine (fun args => decide (args = [some "bad".toList]))) 1
        { committed := [], tx := none, events := [] } "p.tsv".toList false).map
        (fun r => (r.1, r.2.events.drop 3))
      = some (some "insert rows p.tsv: boom".toList,
          [{ call := DbCall.stmtExec [some "1".toList], ok := true },
           { call := DbCall.stmtExec [some "bad".toList], ok := false },
           { call := DbCall.stmtClose, ok := true },
           { call := DbCall.rollback, ok := true }])) ∧
    ∃ res db', importTSV latin1Unicode decimalStrconv
        (oneFileEnv [["1".toList], ["bad".toList], ["3".toList]])
        (listEngine (fun args => decide (args = [some "bad".toList]))) 1
        { committed := [], tx := none, events := [] } "p.tsv".toList false = some (res, db') ∧
      ∃ evs, db'.events = [] ++ evs ∧
        ∀ args, ({ call := DbCall.stmtExec args, ok := false } : DbEvent) ∈ evs →
          (∃ pre, evs = pre ++ [{ call := DbCall.stmtExec args, ok := false },
                                { call := DbCall.stmtClose, ok := true },
                                { call := DbCall.rollback, ok := true }] ∧
            ∀ ev ∈ pre, ev.call ≠ DbCall.commit ∧
              ∀ a, ev ≠ { call := DbCall.stmtExec a, ok := false }) ∧
          (∃ e, res = some ("insert rows ".toList ++ "p.tsv".toList ++ ": ".toList ++ e)) ∧
          db'.committed = [] ∧ db'.tx = none :=
  ⟨by decide,
   importTSV_atomic latin1Unicode decimalStrconv
     (oneFileEnv [["1".toList], ["bad".toList], ["3".toList]])
     (listEngine (fun args => decide (args = [some "bad".toList]))) 1
     { committed := [], tx := none, events := [] } "p.tsv".toList false (by decide)⟩

/-! ## Claims on the reader of `newTSVReader` -/

theorem csvScan_plain : ∀ (line : Str), dq ∉ line → '\n' ∉ line →
    (∀ (fs : List Str) (cur tail : Str), (tail = [] ∨ ∃ rest, tail = '\n' :: rest) →
      csvScan CsvMode.unquoted fs cur (line ++ tail)
        = Except.ok (fs ++ (line.splitOn '\t').modifyHead (fun f => cur ++ f),
            tail.drop 1)) ∧
    (∀ (fs : List Str) (x tail : Str), (tail = [] ∨ ∃ rest, tail = '\n' :: rest) →
      csvScan CsvMode.fieldStart fs x (line ++ tail)
        = Except.ok (fs ++ line.splitOn '\t', tail.drop 1)) := by
  intro line
  induction line with
  | nil =>
    intro _ _
    constructor
    · intro fs cur tail ht
      rcases ht with rfl | ⟨rest, rfl⟩
      · simp [csvScan, List.splitOn]
      · simp [csvScan, List.splitOn]
    · intro fs x tail ht
      rcases ht with rfl | ⟨rest, rfl⟩
      · simp [csvScan, List.splitOn]
      · simp [csvScan, List.splitOn, dq]
  | cons c l ih =>
    intro hq hn
    have hcq : c ≠ dq := fun h => hq (h ▸ List.mem_cons_self _ _)
    have hcn : c ≠ '\n' := fun h => hn (h ▸ List.mem_cons_self _ _)
    obtain ⟨ihu, ihf⟩ := ih (fun h => hq (List.mem_cons_of_mem _ h))
      (fun h => hn (List.mem_cons_of_mem _ h))
    have hsplit : (c :: l).splitOn '\t'
        = if c = '\t' then [] :: l.splitOn '\t'
          else (l.splitOn '\t').modifyHead (List.cons c) := by
      simp only [List.splitOn, List.splitOnP_cons, beq_iff_eq]
    constructor
    · intro fs cur tail ht
      rw [List.cons_append, csvScan, hsplit]
      by_cases hct : c = '\t'
      · rw [if_pos hct, if_pos hct, ihf _ _ _ ht]
        simp
      · rw [if_neg hct, if_neg hcn, if_neg hcq, if_neg hct, ihu _ _ _ ht]
        simp [List.modifyHead_modifyHead, Function.comp_def]
    · intro fs x tail ht
      rw [List.cons_append, csvScan, hsplit]
      by_cases hct : c = '\t'
      · rw [if_neg hcq, if_pos hct, if_pos hct, ihf _ _ _ ht]
        simp
      · rw [if_neg hcq, if_neg hct, if_neg hcn, if_neg hct, ihu _ _ _ ht]
        simp

theorem normalizeLineEnds_lf (rest : Str) :
    normalizeLineEnds ('\n' :: rest) = '\n' :: normalizeLineEnds rest := by
  cases rest with
  | nil => simp [normalizeLineEnds]
  | cons d t => simp [normalizeLineEnds]

theorem normalizeLineEnds_crlf (rest : Str) :
    normalizeLineEnds ('\r' :: '\n' :: rest) = '\n' :: normalizeLineEnds rest := by
  simp [normalizeLineEnds]

/-- A line without `\n` that does not end in `\r` passes through `readLine`
unchanged, whatever follows it. -/
theorem normalizeLineEnds_line : ∀ (line tail : Str), '\n' ∉ line →
    line.getLast? ≠ some '\r' →
    normalizeLineEnds (line ++ tail) = line ++ normalizeLineEnds tail := by
  intro line
  induction line with
  | nil => intro tail _ _; rfl
  | cons c l ih =>
    intro tail hn hr
    have hl : '\n' ∉ l := fun h => hn (List.mem_cons_of_mem _ h)
    have hlr : l.getLast? ≠ some '\r' := by
      cases l with
      | nil => simp
      | cons d t => simpa [List.getLast?_cons_cons] using hr
    rw [List.cons_append, List.cons_append, ← ih tail hl hlr]
    cases hlt : l ++ tail with
    | nil =>
      have hlnil : l = [] := (List.append_eq_nil.1 hlt).1
      have hc : c ≠ '\r' := by
        intro h
        apply hr
        rw [hlnil, h]
        rfl
      simp [normalizeLineEnds, hc]
    | cons d t =>
      have hnot : ¬ (c = '\r' ∧ d = '\n') := by
        rintro ⟨h₁, h₂⟩
        cases l with
        | nil =>
          apply hr
          rw [h₁]
          rfl
        | cons d' t' =>
          simp only [List.cons_append, List.cons.injEq] at hlt
          apply hl
          rw [← h₂, ← hlt.1]
          exact List.mem_cons_self _ _
      rw [normalizeLineEnds, if_neg hnot]

/-- On the state of the reader: a non-empty line without quote is read as the list
of its substrings between tabs, before a line end and at the end of the input. -/
theorem readRecord_of_plain (line rest : Str) (hne : line ≠ []) (hq : dq ∉ line)
    (hn : '\n' ∉ line) :
    readRecord (line ++ '\n' :: rest) = Except.ok (line.splitOn '\t', rest) ∧
    readRecord line = Except.ok (line.splitOn '\t', []) := by
  obtain ⟨_, hf⟩ := csvScan_plain line hq hn
  cases line with
  | nil => exact absurd rfl hne
  | cons c l =>
    have hcn : c ≠ '\n' := fun h => hn (h ▸ List.mem_cons_self _ _)
    constructor
    · have := hf [] [] ('\n' :: rest) (Or.inr ⟨rest, rfl⟩)
      rw [List.cons_append, readRecord, if_neg hcn]
      simpa using this
    · have := hf [] [] [] (Or.inl rfl)
      rw [readRecord, if_neg hcn]
      simpa using this

/-- The line-end handling of the reader on three inputs: a `\r\n` line end is not
part of the last field, a line that is only `\r\n` is skipped, and a `\r` that ends
the input is dropped. -/
theorem readRecord_line_ends :
    readRecord (newTSVReader "a\tb\r\n".toList) = Except.ok (["a".toList, "b".toList], []) ∧
    readRecord (newTSVReader "\r\nb\n".toList) = Except.ok (["b".toList], []) ∧
    readRecord (newTSVReader "a\r".toList) = Except.ok (["a".toList], []) :=
  ⟨rfl, rfl, rfl⟩

/-- C18 as stated fails: the reader reads the second field of the line `a<TAB>"b`
as a quoted field, finds no closing quote and returns `csv.ErrQuote`, whether the
line ends the input or is followed by `\n` or `\r\n`; the substrings of the line
between its tabs are `a` and `"b`. -/
theorem readRecord_quote_counterexample :
    "a\t\"b".toList ≠ [] ∧
    "a\t\"b".toList.splitOn '\t' = ["a".toList, "\"b".toList] ∧
    readRecord (newTSVReader "a\t\"b".toList) = Except.error CsvError.quote ∧
    readRecord (newTSVReader "a\t\"b\n".toList) = Except.error CsvError.quote ∧
    readRecord (newTSVReader "a\t\"b\r\n".toList) = Except.error CsvError.quote :=
  ⟨by decide, by decide, rfl, rfl, rfl⟩

/-- C18, amended: for every non-empty input line, taken without its line end, that
contains no double-quote character, the record the reader yields is exactly the list
of substrings of the line between consecutive tab characters, and the reader is
left on what follows the line; the line end is `\n` or `\r\n`, or the end of the
input, where a final `\r` is dropped.  Fields that contain a double quote are
subject to quote processing. -/
theorem readRecord_plain (line rest : Str) (hne : line ≠ []) (hq : dq ∉ line)
    (hn : '\n' ∉ line) (hr : line.getLast? ≠ some '\r') :
    readRecord (newTSVReader (line ++ '\n' :: rest))
      = Except.ok (line.splitOn '\t', newTSVReader rest) ∧
    readRecord (newTSVReader (line ++ '\r' :: '\n' :: rest))
      = Except.ok (line.splitOn '\t', newTSVReader rest) ∧
    readRecord (newTSVReader line) = Except.ok (line.splitOn '\t', []) ∧
    readRecord (newTSVReader (line ++ ['\r'])) = Except.ok (line.splitOn '\t', []) := by
  obtain ⟨h₁, h₂⟩ := readRecord_of_plain line (normalizeLineEnds rest) hne hq hn
  have e₁ : normalizeLineEnds (line ++ '\n' :: rest) = line ++ '\n' :: normalizeLineEnds rest := by
    rw [normalizeLineEnds_line line _ hn hr, normalizeLineEnds_lf]
  have e₂ : normalizeLineEnds (line ++ '\r' :: '\n' :: rest)
      = line ++ '\n' :: normalizeLineEnds rest := by
    rw [normalizeLineEnds_line line _ hn hr, normalizeLineEnds_crlf]
  have e₃ : normalizeLineEnds line = line := by
    have := normalizeLineEnds_line line [] hn hr
    simpa [normalizeLineEnds] using this
  have e₄ : normalizeLineEnds (line ++ ['\r']) = line := by
    have := normalizeLineEnds_line line ['\r'] hn hr
    simpa [normalizeLineEnds] using this
  unfold newTSVReader
  rw [e₁, e₂, e₃, e₄]
  exact ⟨h₁, h₁, h₂, h₂⟩

/-- Witness of the amended C18: the line `a<TAB><TAB>b c` followed by another
line. -/
theorem readRecord_plain_witness :
    readRecord (newTSVReader ("a\t\tb c".toList ++ '\n' :: "x\r\n".toList))
      = Except.ok ([['a'], [], ['b', ' ', 'c']], ['x', '\n']) ∧
    readRecord (newTSVReader ("a\t\tb c".toList ++ '\r' :: '\n' :: "x\r\n".toList))
      = Except.ok ([['a'], [], ['b', ' ', 'c']], ['x', '\n']) :=
  ⟨(readRecord_plain "a\t\tb c".toList "x\r\n".toList (by decide) (by decide) (by decide)
      (by decide)).1,
   (readRecord_plain "a\t\tb c".toList "x\r\n".toList (by decide) (by decide) (by decide)
      (by decide)).2.1⟩

end SqliteGen
